import Mathlib

/-!
# Verification of the RPT batch editor (`scode.py`)

A shallow embedding of the core of `scode.py`:

* `readRptFile`  models `read_rpt_file`  (parser),
* `writeRptFile` models `write_rpt_file` (writer),
* `smartMatch`   models `smart_match`    (match predicate),
* `applyUpdates` models `apply_updates`  (update engine).

Files are modelled as lists of lines (the `readlines` view, without the
trailing newline characters).  Python string primitives used by the code
(`strip`, `strip('"')`, `strip('!')`, `split(',')`, `split()`, `join`,
`startswith`, `endswith`, `str(int)`) are modelled by executable functions
over `List Char`.  `pd.to_numeric` applied to a cell string is modelled by
`parseNum : String → Option ℚ` (optional surrounding whitespace, optional
sign, decimal digits with an optional fractional part).  The `TypeError`
that `read_rpt_file` raises when the first data row precedes the column
declaration line and carries a quote-wrapped field is modelled by the
`Except` error case; the early 4-tuple return for files of at most one
line is modelled by the `ReadResult.short` constructor.
-/

namespace Scode

/-! ## Python string primitives -/

/-- The list `l` with all leading and trailing elements satisfying `p` removed:
the model of Python's two-sided `strip`. -/
def stripList (p : Char → Bool) (l : List Char) : List Char :=
  ((l.dropWhile p).reverse.dropWhile p).reverse

/-- Python `s.strip()` (whitespace on both ends). -/
def pyStrip (s : String) : String :=
  ⟨stripList Char.isWhitespace s.data⟩

/-- Python `s.strip('"')` (all boundary double quotes removed). -/
def stripQ (s : String) : String :=
  ⟨stripList (· == '"') s.data⟩

/-- Python `s.strip('!')` (all boundary `!` removed). -/
def stripBang (s : String) : String :=
  ⟨stripList (· == '!') s.data⟩

/-- Python `s.split(c)` for a one-character separator. -/
def pySplit (c : Char) (s : String) : List String :=
  (s.data.splitOn c).map List.asString

/-- Python `sep.join xs` for a one-character separator. -/
def pyJoin (c : Char) (xs : List String) : String :=
  ([c].intercalate (xs.map String.data)).asString

/-- Python `s.startswith(pre)`. -/
def pyStartsWith (pre s : String) : Bool :=
  pre.data.isPrefixOf s.data

/-- Python `s.endswith(suf)`. -/
def pyEndsWith (suf s : String) : Bool :=
  suf.data.isSuffixOf s.data

/-- Auxiliary for `pySplitWs`: whitespace splitting with an accumulator. -/
def wsSplitAux : List Char → List Char → List (List Char)
  | [], acc => if acc = [] then [] else [acc.reverse]
  | c :: cs, acc =>
    if c.isWhitespace then
      if acc = [] then wsSplitAux cs [] else acc.reverse :: wsSplitAux cs []
    else wsSplitAux cs (c :: acc)

/-- Python `s.split()` (split on whitespace runs, dropping empty pieces). -/
def pySplitWs (s : String) : List String :=
  (wsSplitAux s.data []).map List.asString

/-- Decimal digit characters, used to model Python `str` of an integer. -/
def digitChar (d : Nat) : Char :=
  ("0123456789".data).getD d '0'

/-- Fueled digit rendering, structural so that it evaluates in the kernel. -/
def natToStrAux : Nat → Nat → List Char
  | 0, _ => []
  | fuel + 1, n =>
    if n < 10 then [digitChar n]
    else natToStrAux fuel (n / 10) ++ [digitChar (n % 10)]

/-- Model of Python `str(n)` for a natural number. -/
def natToStr (n : Nat) : String :=
  ⟨natToStrAux (n + 1) n⟩

/-! ## The numeric coercion model (`pd.to_numeric` on a cell string)

A parsed number is kept unnormalized as `mant / 10 ^ scale`; equality is
decided by cross multiplication, which agrees with rational equality. -/

/-- An exact decimal: the value `mant / 10 ^ scale`. -/
structure Dec where
  mant : Int
  scale : Nat
deriving DecidableEq, Repr

/-- The rational value of a `Dec`. -/
def Dec.toRat (d : Dec) : ℚ := (d.mant : ℚ) / (10 : ℚ) ^ d.scale

/-- Numeric equality of two parsed numbers (cross multiplication). -/
def Dec.eqb (a b : Dec) : Bool :=
  a.mant * (10 : Int) ^ b.scale == b.mant * (10 : Int) ^ a.scale

/-- Numeric value of an all-digit character list. -/
def digitsNat (l : List Char) : Nat :=
  l.foldl (fun a c => a * 10 + (c.toNat - 48)) 0

/-- Unsigned decimal number: digits with an optional single decimal point,
at least one digit in total. -/
def parseUnsigned (l : List Char) : Option Dec :=
  let ip := l.takeWhile (· ≠ '.')
  let rest := l.dropWhile (· ≠ '.')
  match rest with
  | [] =>
    if ip ≠ [] ∧ ip.all Char.isDigit then some ⟨digitsNat ip, 0⟩ else none
  | _ :: fp =>
    if fp.contains '.' then none
    else if ip = [] ∧ fp = [] then none
    else if ip.all Char.isDigit ∧ fp.all Char.isDigit then
      some ⟨digitsNat ip * 10 ^ fp.length + digitsNat fp, fp.length⟩
    else none

/-- Model of `pd.to_numeric` on a string: optional surrounding whitespace,
optional sign, decimal digits with an optional fractional part. -/
def parseNum (s : String) : Option Dec :=
  match (pyStrip s).data with
  | '+' :: cs => parseUnsigned cs
  | '-' :: cs => (parseUnsigned cs).map (fun d => ⟨-d.mant, d.scale⟩)
  | cs => parseUnsigned cs

/-! ## `smart_match` -/

/-- Model of `smart_match(series, target_value)`: numeric comparison where
both sides coerce to numbers, string comparison for rows that do not
coerce; plain string comparison when the target does not coerce. -/
def smartMatch (series : List String) (target : String) : List Bool :=
  match parseNum target with
  | some tq =>
    series.map (fun v =>
      match parseNum v with
      | some vq => vq.eqb tq
      | none => v == target)
  | none => series.map (fun v => v == target)

/-- The match predicate exactly as the specification words it, one row at a
time (a refinement-side definition, for comparison with `smartMatch`). -/
def specSmartMatch (v target : String) : Bool :=
  match parseNum target with
  | some tq =>
    match parseNum v with
    | some vq => vq.eqb tq
    | none => v == target
  | none => v == target

/-! ## The table model and the update engine -/

/-- The DataFrame built by the parser: named columns over rows of string
cells (rows stored row-major; every row has one cell per column). -/
structure Table where
  cols : List String
  rows : List (List String)
deriving DecidableEq, Repr

/-- Well-formed table: unique column names, rectangular rows. -/
def Table.WF (t : Table) : Prop :=
  t.cols.Nodup ∧ ∀ r ∈ t.rows, r.length = t.cols.length

/-- Index of a column name. -/
def colIdx (t : Table) (c : String) : Nat := t.cols.indexOf c

/-- The series `rpt_data[c]`. -/
def getCol (t : Table) (c : String) : List String :=
  t.rows.map (fun r => r.getD (colIdx t c) "")

/-- The cell of column `c` in row `i`. -/
def cell (t : Table) (c : String) (i : Nat) : String :=
  (t.rows.getD i []).getD (colIdx t c) ""

/-- Pandas `rpt_data[c] = v`: overwrite the whole column if it exists,
otherwise append it on the right with `v` in every row. -/
def setWholeCol (t : Table) (c v : String) : Table :=
  if c ∈ t.cols then ⟨t.cols, t.rows.map (fun r => r.set (colIdx t c) v)⟩
  else ⟨t.cols ++ [c], t.rows.map (fun r => r ++ [v])⟩

/-- Pandas `rpt_data.loc[mask, c] = v`. -/
def setColMask (t : Table) (c : String) (mask : List Bool) (v : String) : Table :=
  ⟨t.cols, List.zipWith (fun r b => if b then r.set (colIdx t c) v else r) t.rows mask⟩

/-- Pandas `rpt_data.drop(columns=[c])` (first occurrence of the name). -/
def dropCol (t : Table) (c : String) : Table :=
  ⟨t.cols.eraseIdx (colIdx t c), t.rows.map (fun r => r.eraseIdx (colIdx t c))⟩

/-- One row of the instruction table. -/
structure UpdateInstr where
  Action : String
  ColumnName : String
  NewValue : String
  LookupColumn : Option String := none
  LookupValue : Option String := none
  CurrentValue : Option String := none
deriving DecidableEq, Repr

/-- One `add` instruction: broadcast `NewValue` into `ColumnName` and mark
the column for quoting when the value fails numeric coercion. -/
def applyAdd (tq : Table × List String) (r : UpdateInstr) : Table × List String :=
  let t := setWholeCol tq.1 r.ColumnName r.NewValue
  let q := match parseNum r.NewValue with
    | some _ => tq.2
    | none => tq.2 ++ [r.ColumnName]
  (t, q)

/-- One `delete` instruction: drop the column if present. -/
def applyDelete (t : Table) (r : UpdateInstr) : Table :=
  if r.ColumnName ∈ t.cols then dropCol t r.ColumnName else t

/-- Pointwise conjunction of two masks. -/
def andMask (a b : List Bool) : List Bool := List.zipWith and a b

/-- One `update` instruction, with the four matching modes of the code. -/
def applyUpdateInstr (t : Table) (r : UpdateInstr) : Table :=
  if r.ColumnName ∉ t.cols then t
  else
    let hasLC := r.LookupColumn.isSome
    let hasLV := r.LookupValue.isSome
    let hasCV := r.CurrentValue.isSome
    if hasLC ∧ hasLV ∧ hasCV then
      if r.LookupColumn.getD "" ∈ t.cols then
        setColMask t r.ColumnName
          (andMask (smartMatch (getCol t (r.LookupColumn.getD "")) (r.LookupValue.getD ""))
            (smartMatch (getCol t r.ColumnName) (r.CurrentValue.getD "")))
          r.NewValue
      else t
    else if hasLC ∧ hasLV then
      if r.LookupColumn.getD "" ∈ t.cols then
        setColMask t r.ColumnName
          (smartMatch (getCol t (r.LookupColumn.getD "")) (r.LookupValue.getD ""))
          r.NewValue
      else t
    else if hasCV then
      setColMask t r.ColumnName
        (smartMatch (getCol t r.ColumnName) (r.CurrentValue.getD ""))
        r.NewValue
    else setWholeCol t r.ColumnName r.NewValue

/-- Model of `apply_updates`: all `add` rows first, then all `delete` rows, then all
`update` rows, each group in instruction-table order; the quoting set is
threaded through (only the `add` group touches it). -/
def applyUpdates (t : Table) (instrs : List UpdateInstr) (q : List String) :
    Table × List String :=
  let addRes := (instrs.filter (fun r => r.Action == "add")).foldl applyAdd (t, q)
  let t2 := (instrs.filter (fun r => r.Action == "delete")).foldl applyDelete addRes.1
  let t3 := (instrs.filter (fun r => r.Action == "update")).foldl applyUpdateInstr t2
  (t3, addRes.2)

/-! ## The parser (`read_rpt_file`) -/

/-- A comma field counts as quote wrapped when, after stripping
whitespace, it both starts and ends with a double quote. -/
def quotedField (p : String) : Bool :=
  pyStartsWith "\"" p && pyEndsWith "\"" p

/-- Column names recorded as quoted from the fields of the first data row
(`columns[i]` for every quote-wrapped field index `i` below the column
count). -/
def quotedNames (cols : List String) (rest : List String) : List String :=
  rest.enum.filterMap (fun ip =>
    if quotedField (pyStrip ip.2) ∧ ip.1 < cols.length then some (cols.getD ip.1 "")
    else none)

/-- Parser state: the column marker and names once seen, the
first-data-row flag, the quoted-column names, and the kept rows. -/
structure PState where
  marker : Option String := none
  columns : Option (List String) := none
  firstRow : Bool := true
  quoted : List String := []
  data : List (List String) := []
deriving DecidableEq, Repr

/-- One iteration of the line loop of `read_rpt_file`.  The error case is
the `TypeError` the code raises when the first data row is met before any
column declaration and carries a quote-wrapped field (`len(None)`). -/
def parseLine (st : PState) (line : String) : Except Unit PState :=
  let l := pyStrip line
  if l = "" ∨ pyStartsWith "#" l then .ok st
  else
    match pySplit ',' l with
    | [] => .ok st
    | p0 :: rest =>
      if st.columns.isNone ∧ pyStartsWith "!" p0 then
        match (p0 :: rest).map (fun p => pyStrip (stripBang p)) with
        | [] => .ok st
        | m :: cs => .ok { st with marker := some m, columns := some cs }
      else if pyStartsWith "*" p0 then
        match st.columns with
        | none =>
          if st.firstRow then
            if rest.any (fun p => quotedField (pyStrip p)) then .error ()
            else .ok { st with firstRow := false }
          else .ok st
        | some cols =>
          let st1 := if st.firstRow then
              { st with quoted := st.quoted ++ quotedNames cols rest, firstRow := false }
            else st
          let rowData := rest.map stripQ
          if rowData ≠ [] ∧ cols ≠ [] ∧ rowData.length = cols.length then
            .ok { st1 with data := st1.data ++ [rowData] }
          else .ok st1
      else .ok st

/-- The line loop. -/
def parseLines (st : PState) : List String → Except Unit PState
  | [] => .ok st
  | l :: ls => do parseLines (← parseLine st l) ls

/-- Index of the first line whose stripped content starts with `##`. -/
def footerStart : List String → Option Nat
  | [] => none
  | l :: ls =>
    if pyStartsWith "##" (pyStrip l) then some 0
    else (footerStart ls).map (· + 1)

/-- Everything `read_rpt_file` returns.  `full` is the ordinary 5-tuple;
`short` is the early 4-tuple returned for files of at most one line,
which carries no column marker. -/
structure RptParse where
  table : Table
  header : Option String
  footer : List String
  quoted : List String
  marker : Option String
deriving DecidableEq, Repr

inductive ReadResult where
  | full (p : RptParse)
  | short (header : Option String) (footer : List String) (quoted : List String)
deriving DecidableEq, Repr

/-- Model of `read_rpt_file` on the file's lines. -/
def readRptFile (lines : List String) : Except Unit ReadResult :=
  let headerLine := lines.head?
  if lines.length ≤ 1 then .ok (.short headerLine [] [])
  else
    let fs := footerStart lines
    let footer := match fs with
      | some i => lines.drop i
      | none => []
    let dataL := match fs with
      | some i => (lines.take i).drop 1
      | none => lines.drop 1
    match parseLines {} dataL with
    | .error e => .error e
    | .ok st =>
      let table : Table := match st.columns with
        | some cols => if st.data ≠ [] ∧ cols ≠ [] then ⟨cols, st.data⟩ else ⟨[], []⟩
        | none => ⟨[], []⟩
      .ok (.full ⟨table, headerLine, footer, st.quoted, st.marker⟩)

/-! ## The writer (`write_rpt_file`) -/

/-- A value formatted for output: wrapped in double quotes when its column
is in the quoted set. -/
def formatVal (quoted : List String) (c v : String) : String :=
  if c ∈ quoted then "\"" ++ v ++ "\"" else v

/-- The rewritten header: first whitespace token replaced by the column
count; a tokenless header is reproduced verbatim; a missing or empty
header produces no line. -/
def headerOut (headerLine : Option String) (ncols : Nat) : List String :=
  match headerLine with
  | none => []
  | some h =>
    if h = "" then []
    else
      match pySplitWs (pyStrip h) with
      | [] => [h]
      | _ :: parts => [pyJoin ' ' (natToStr ncols :: parts)]

/-- The regenerated column-declaration line. -/
def colLineOut (marker : Option String) (cols : List String) : String :=
  match marker with
  | some m => if m ≠ "" then "!" ++ m ++ "," ++ pyJoin ',' cols else "!" ++ pyJoin ',' cols
  | none => "!" ++ pyJoin ',' cols

/-- Model of `write_rpt_file`, producing the output file's lines. -/
def writeRptFile (df : Table) (headerLine : Option String) (footerLines : List String)
    (quoted : List String) (marker : Option String) : List String :=
  let dataLines := df.rows.map (fun r =>
    "*," ++ pyJoin ',' (List.zipWith (formatVal quoted) df.cols r))
  headerOut headerLine df.cols.length ++ [colLineOut marker df.cols] ++
    dataLines ++ [""] ++ footerLines

/-! ## Derived views of the parser, used to state the structural claims -/

/-- A line the data loop ignores: blank after stripping, or a comment. -/
@[reducible] def inertLine (l : String) : Prop :=
  pyStrip l = "" ∨ pyStartsWith "#" (pyStrip l) = true

/-- Whether a line is a data line that the parser keeps, for a given
column list: marker field starting with `*` and exactly one value per
column (the conditions of the append guard in `read_rpt_file`). -/
def keptLine (cols : List String) (l : String) : Bool :=
  let s := pyStrip l
  if s = "" ∨ pyStartsWith "#" s then false
  else
    match pySplit ',' s with
    | [] => false
    | p0 :: rest =>
      if pyStartsWith "*" p0 then
        let rowData := rest.map stripQ
        decide (rowData ≠ [] ∧ cols ≠ [] ∧ rowData.length = cols.length)
      else false

/-- The values a data line contributes: every field after the marker,
with all boundary double quotes stripped. -/
def rowOf (l : String) : List String :=
  ((pySplit ',' (pyStrip l)).tail).map stripQ

/-- The marker and column names a line yields when it is recognized as
the column-declaration line. -/
def colDecl (l : String) : Option (String × List String) :=
  let s := pyStrip l
  if s = "" ∨ pyStartsWith "#" s then none
  else
    match pySplit ',' s with
    | [] => none
    | p0 :: rest =>
      if pyStartsWith "!" p0 then
        match (p0 :: rest).map (fun p => pyStrip (stripBang p)) with
        | [] => none
        | m :: cs => some (m, cs)
      else none

/-- The data-region part of the lines after the column-declaration line. -/
def regionData (rest : List String) : List String :=
  match footerStart rest with
  | some i => rest.take i
  | none => rest

/-- The footer part of the lines after the column-declaration line. -/
def regionFooter (rest : List String) : List String :=
  match footerStart rest with
  | some i => rest.drop i
  | none => []

/-- The final DataFrame construction of `read_rpt_file` (`pd.DataFrame`
only when both rows and columns are nonempty, else the empty frame). -/
def mkTable (cs : List String) (data : List (List String)) : Table :=
  if data ≠ [] ∧ cs ≠ [] then ⟨cs, data⟩ else ⟨[], []⟩

/-! ## Well-formedness of a parse, for the round-trip claim -/

/-- A header or column token that survives re-parsing: no boundary
whitespace, no boundary `!`, no comma. -/
@[reducible] def cleanTok (s : String) : Prop :=
  pyStrip s = s ∧ stripBang s = s ∧ ',' ∉ s.data

/-- A cell value that survives re-parsing: no boundary whitespace, no
boundary double quote, no comma. -/
@[reducible] def cleanVal (s : String) : Prop :=
  pyStrip s = s ∧ stripQ s = s ∧ ',' ∉ s.data

/-- A well-formed parse result: a nonempty header line, a nonempty clean
marker, nonempty clean column names, a nonempty rectangular row block of
clean values, and a footer that is absent or starts with `##`. -/
@[reducible] def goodParse (p : RptParse) : Prop :=
  p.header.getD "" ≠ "" ∧
  (match p.marker with
   | some m => m ≠ "" ∧ cleanTok m
   | none => False) ∧
  p.table.cols ≠ [] ∧
  (∀ c ∈ p.table.cols, c ≠ "" ∧ cleanTok c) ∧
  p.table.rows ≠ [] ∧
  (∀ r ∈ p.table.rows, r.length = p.table.cols.length ∧ ∀ v ∈ r, cleanVal v) ∧
  (match p.footer with
   | [] => True
   | f :: _ => pyStartsWith "##" (pyStrip f) = true)

/-! ## Basic facts about the string primitives -/

theorem stripList_eq_self (p : Char → Bool) (l : List Char)
    (h1 : ∀ a, l.head? = some a → p a = false)
    (h2 : ∀ a, l.getLast? = some a → p a = false) :
    stripList p l = l := by
  cases l with
  | nil => rfl
  | cons a l' =>
    have ha : p a = false := h1 a rfl
    unfold stripList
    rw [List.dropWhile_cons_of_neg (by simp [ha])]
    have hrev : (a :: l').reverse.dropWhile p = (a :: l').reverse := by
      cases hr : (a :: l').reverse with
      | nil => simp at hr
      | cons b r' =>
        have hb : p b = false := by
          apply h2
          rw [← List.head?_reverse, hr]; rfl
        rw [List.dropWhile_cons_of_neg (by simp [hb])]
    rw [hrev, List.reverse_reverse]

theorem dropWhile_replicate_append (p : Char → Bool) (a : Char) (h : p a = true)
    (n : Nat) (l : List Char) :
    (List.replicate n a ++ l).dropWhile p = l.dropWhile p := by
  induction n with
  | zero => simp
  | succ k ih => simp [List.replicate_succ, List.dropWhile_cons, h, ih]

theorem stripList_wrap (p : Char → Bool) (a : Char) (h : p a = true) (n m : Nat)
    (l : List Char)
    (h1 : ∀ c, l.head? = some c → p c = false)
    (h2 : ∀ c, l.getLast? = some c → p c = false) :
    stripList p (List.replicate n a ++ l ++ List.replicate m a) = l := by
  unfold stripList
  rw [List.append_assoc, dropWhile_replicate_append p a h]
  cases l with
  | nil =>
    simp only [List.nil_append]
    rw [List.dropWhile_replicate]
    simp [h]
  | cons b l' =>
    have hb : p b = false := h1 b rfl
    rw [List.cons_append, List.dropWhile_cons_of_neg (by simp [hb])]
    rw [← List.cons_append, List.reverse_append, List.reverse_replicate,
      dropWhile_replicate_append p a h]
    have : ((b :: l').reverse).dropWhile p = (b :: l').reverse := by
      cases hr : (b :: l').reverse with
      | nil => simp at hr
      | cons c r' =>
        have hc : p c = false := by
          apply h2
          rw [← List.head?_reverse, hr]; rfl
        rw [List.dropWhile_cons_of_neg (by simp [hc])]
    rw [this, List.reverse_reverse]

theorem pyStartsWith_iff (pre s : String) :
    pyStartsWith pre s = true ↔ pre.data <+: s.data := by
  simp [pyStartsWith, List.isPrefixOf_iff_prefix]

theorem pyStartsWith_char (c : Char) (s : String) :
    pyStartsWith ⟨[c]⟩ s = true ↔ ∃ t, s.data = c :: t := by
  rw [pyStartsWith_iff]
  constructor
  · rintro ⟨t, ht⟩
    exact ⟨t, ht.symm⟩
  · rintro ⟨t, ht⟩
    exact ⟨t, ht.symm⟩

theorem pyEndsWith_char (c : Char) (s : String) :
    pyEndsWith ⟨[c]⟩ s = true ↔ ∃ t, s.data = t ++ [c] := by
  simp only [pyEndsWith, List.isSuffixOf_iff_suffix]
  constructor
  · rintro ⟨t, ht⟩
    exact ⟨t, ht.symm⟩
  · rintro ⟨t, ht⟩
    exact ⟨t, ht.symm⟩

/-- A run of `n` double quotes. -/
def quotes (n : Nat) : String := ⟨List.replicate n '"'⟩

theorem dropWhile_append_singleton (p : Char → Bool) (a : Char) (ha : p a = false)
    (xs : List Char) :
    (xs ++ [a]).dropWhile p = xs.dropWhile p ++ [a] := by
  induction xs with
  | nil => simp [List.dropWhile_cons, ha]
  | cons b bs ih =>
    by_cases hb : p b
    · simp [List.dropWhile_cons, hb, ih]
    · simp [List.dropWhile_cons, hb]

theorem stripList_cons_of_neg (p : Char → Bool) (a : Char) (l : List Char)
    (ha : p a = false) :
    stripList p (a :: l) = a :: (l.reverse.dropWhile p).reverse := by
  unfold stripList
  rw [List.dropWhile_cons_of_neg (by simp [ha]), List.reverse_cons,
    dropWhile_append_singleton p a ha, List.reverse_append]
  rfl

theorem stripList_nil_of_all (p : Char → Bool) (l : List Char)
    (h : ∀ c ∈ l, p c = true) : stripList p l = [] := by
  have hd : l.dropWhile p = [] := List.dropWhile_eq_nil_iff.mpr (by
    intro c hc
    simp [h c hc])
  unfold stripList
  rw [hd]
  rfl

theorem length_dropWhile_le (p : Char → Bool) (l : List Char) :
    (l.dropWhile p).length ≤ l.length :=
  (List.dropWhile_suffix p).length_le

theorem length_stripList_le (p : Char → Bool) (l : List Char) :
    (stripList p l).length ≤ (l.dropWhile p).length := by
  unfold stripList
  calc ((l.dropWhile p).reverse.dropWhile p).reverse.length
      = ((l.dropWhile p).reverse.dropWhile p).length := List.length_reverse _
    _ ≤ (l.dropWhile p).reverse.length := length_dropWhile_le _ _
    _ = (l.dropWhile p).length := List.length_reverse _

theorem boundary_head_of_stripList_eq (p : Char → Bool) (l : List Char)
    (h : stripList p l = l) :
    ∀ a, l.head? = some a → p a = false := by
  intro a ha
  by_contra hp
  simp only [Bool.not_eq_false] at hp
  cases l with
  | nil => simp at ha
  | cons b l' =>
    have hba : b = a := by simpa using ha
    subst hba
    have h1 : (stripList p (b :: l')).length ≤ ((b :: l').dropWhile p).length :=
      length_stripList_le p _
    rw [List.dropWhile_cons_of_pos (by simp [hp])] at h1
    have h2 : (l'.dropWhile p).length ≤ l'.length := length_dropWhile_le _ _
    rw [h] at h1
    simp only [List.length_cons] at h1
    omega

theorem boundary_last_of_stripList_eq (p : Char → Bool) (l : List Char)
    (h : stripList p l = l) :
    ∀ a, l.getLast? = some a → p a = false := by
  intro a ha
  by_contra hp
  simp only [Bool.not_eq_false] at hp
  obtain ⟨t, ht⟩ := List.getLast?_eq_some_iff.mp ha
  subst ht
  have key : (stripList p (t ++ [a])).length < (t ++ [a]).length := by
    cases hdrop : (t ++ [a]).dropWhile p with
    | nil =>
      have h1 := length_stripList_le p (t ++ [a])
      rw [hdrop] at h1
      simp only [List.length_nil, Nat.le_zero] at h1
      simp only [h1, List.length_append, List.length_cons, List.length_nil]
      omega
    | cons b d =>
      have hsuff : (t ++ [a]).dropWhile p <:+ (t ++ [a]) := List.dropWhile_suffix p
      have hlast : (b :: d).getLast? = some a := by
        obtain ⟨s, hs⟩ := hsuff
        rw [hdrop] at hs
        have h2 : (s ++ b :: d).getLast? = some a := by
          rw [hs, List.getLast?_append_of_ne_nil t (by simp)]
          rfl
        rwa [List.getLast?_append_of_ne_nil s (by simp)] at h2
      obtain ⟨t', ht'⟩ := List.getLast?_eq_some_iff.mp hlast
      have hlen1 : (stripList p (t ++ [a])).length ≤
          ((b :: d).reverse.dropWhile p).length := by
        have heq : stripList p (t ++ [a]) = ((b :: d).reverse.dropWhile p).reverse := by
          unfold stripList
          rw [hdrop]
        rw [heq, List.length_reverse]
      have hrev : (b :: d).reverse = a :: t'.reverse := by
        rw [ht', List.reverse_append]
        rfl
      have hlen2 : ((b :: d).reverse.dropWhile p).length ≤ t'.length := by
        rw [hrev, List.dropWhile_cons_of_pos (by simp [hp])]
        calc (t'.reverse.dropWhile p).length ≤ t'.reverse.length :=
            length_dropWhile_le _ _
          _ = t'.length := List.length_reverse _
      have hbd : (b :: d).length ≤ (t ++ [a]).length := by
        rw [← hdrop]
        exact length_dropWhile_le _ _
      have hbd' : (b :: d).length = t'.length + 1 := by
        rw [ht']
        simp
      simp only [List.length_append, List.length_cons, List.length_nil]
        at hbd hbd' hlen1 hlen2 ⊢
      omega
  rw [h] at key
  omega

theorem stripList_eq_self_of_boundary (p : Char → Bool) (l : List Char)
    (h1 : ∀ a, l.head? = some a → p a = false)
    (h2 : ∀ a, l.getLast? = some a → p a = false) :
    stripList p l = l :=
  stripList_eq_self p l h1 h2

theorem not_startsWith_of_head (c : Char) (pre s : String) (t : List Char)
    (hpre : pre.data = c :: t)
    (h : ∀ a, s.data.head? = some a → a ≠ c) :
    pyStartsWith pre s = false := by
  unfold pyStartsWith
  rw [hpre]
  cases hs : s.data with
  | nil => rfl
  | cons a rest =>
    have hne : a ≠ c := h a (by rw [hs]; rfl)
    simp [List.isPrefixOf, Ne.symm hne]

theorem wsSplitAux_eq_nil (l : List Char) (acc : List Char)
    (h : wsSplitAux l acc = []) :
    acc = [] ∧ ∀ c ∈ l, c.isWhitespace = true := by
  induction l generalizing acc with
  | nil =>
    unfold wsSplitAux at h
    by_cases hacc : acc = []
    · exact ⟨hacc, by simp⟩
    · rw [if_neg hacc] at h
      simp at h
  | cons c cs ih =>
    unfold wsSplitAux at h
    by_cases hws : c.isWhitespace
    · rw [if_pos hws] at h
      by_cases hacc : acc = []
      · rw [if_pos hacc] at h
        obtain ⟨-, hall⟩ := ih [] h
        exact ⟨hacc, by
          intro a ha
          rcases List.mem_cons.mp ha with rfl | ha'
          · exact hws
          · exact hall a ha'⟩
      · rw [if_neg hacc] at h
        simp at h
    · rw [if_neg hws] at h
      obtain ⟨habs, -⟩ := ih (c :: acc) h
      simp at habs

theorem digitChar_mem (d : Nat) : digitChar d ∈ "0123456789".data := by
  unfold digitChar
  by_cases h : d < 10
  · interval_cases d <;> decide
  · rw [List.getD_eq_default]
    · decide
    · simp only [not_lt] at h
      calc ("0123456789".data).length = 10 := by decide
        _ ≤ d := h

theorem natToStrAux_digits (fuel n : Nat) :
    ∀ c ∈ natToStrAux fuel n, c ∈ "0123456789".data := by
  induction fuel generalizing n with
  | zero => intro c hc; simp [natToStrAux] at hc
  | succ f ih =>
    intro c hc
    unfold natToStrAux at hc
    by_cases h : n < 10
    · rw [if_pos h] at hc
      simp only [List.mem_singleton] at hc
      subst hc
      exact digitChar_mem n
    · rw [if_neg h] at hc
      rcases List.mem_append.mp hc with h1 | h2
      · exact ih (n / 10) c h1
      · simp only [List.mem_singleton] at h2
        subst h2
        exact digitChar_mem (n % 10)

theorem digit_char_props :
    ∀ c ∈ "0123456789".data, c.isWhitespace = false ∧ c ≠ '#' := by
  decide

theorem natToStrAux_ne_nil (fuel n : Nat) (hf : fuel ≠ 0) :
    natToStrAux fuel n ≠ [] := by
  cases fuel with
  | zero => exact absurd rfl hf
  | succ f =>
    unfold natToStrAux
    by_cases h : n < 10
    · simp [h]
    · simp [h]

/-! ## Structural behavior of the line loop -/

theorem parseLine_inert (st : PState) (l : String) (h : inertLine l) :
    parseLine st l = .ok st := by
  unfold parseLine
  rcases h with h | h
  · rw [if_pos (Or.inl h)]
  · rw [if_pos (Or.inr h)]

theorem parseLines_cons (st : PState) (l : String) (ls : List String) :
    parseLines st (l :: ls) = (parseLine st l).bind (fun st' => parseLines st' ls) := by
  rfl

theorem parseLines_append (st : PState) (xs ys : List String) :
    parseLines st (xs ++ ys) =
      (parseLines st xs).bind (fun st' => parseLines st' ys) := by
  induction xs generalizing st with
  | nil => rfl
  | cons x xs ih =>
    rw [List.cons_append, parseLines_cons, parseLines_cons]
    cases parseLine st x with
    | error e => rfl
    | ok st1 =>
      show parseLines st1 (xs ++ ys) = _
      rw [ih st1]
      rfl

theorem parseLines_inert (st : PState) (ls : List String)
    (h : ∀ l ∈ ls, inertLine l) :
    parseLines st ls = .ok st := by
  induction ls with
  | nil => rfl
  | cons l ls ih =>
    rw [parseLines_cons, parseLine_inert st l (h l (List.mem_cons_self l ls))]
    exact ih (fun x hx => h x (List.mem_cons_of_mem l hx))

theorem footerStart_cons (l : String) (ls : List String) :
    footerStart (l :: ls) =
      if pyStartsWith "##" (pyStrip l) = true then some 0
      else (footerStart ls).map (· + 1) := rfl

theorem footerStart_cons_neg (l : String) (ls : List String)
    (h : pyStartsWith "##" (pyStrip l) = false) :
    footerStart (l :: ls) = (footerStart ls).map (· + 1) := by
  rw [footerStart_cons, if_neg (by simp [h])]

theorem footerStart_cons_pos (l : String) (ls : List String)
    (h : pyStartsWith "##" (pyStrip l) = true) :
    footerStart (l :: ls) = some 0 := by
  rw [footerStart_cons, if_pos h]

theorem footerStart_append_neg (xs ys : List String)
    (h : ∀ l ∈ xs, pyStartsWith "##" (pyStrip l) = false) :
    footerStart (xs ++ ys) = (footerStart ys).map (· + xs.length) := by
  induction xs with
  | nil =>
    simp only [List.nil_append, List.length_nil]
    cases footerStart ys <;> simp
  | cons x xs ih =>
    rw [List.cons_append, footerStart_cons_neg x _ (h x (List.mem_cons_self x xs)),
      ih (fun l hl => h l (List.mem_cons_of_mem x hl))]
    cases footerStart ys <;> simp
    omega

theorem footerStart_none (ls : List String)
    (h : ∀ l ∈ ls, pyStartsWith "##" (pyStrip l) = false) :
    footerStart ls = none := by
  induction ls with
  | nil => rfl
  | cons l ls ih =>
    rw [footerStart_cons_neg l ls (h l (List.mem_cons_self l ls)),
      ih (fun x hx => h x (List.mem_cons_of_mem l hx))]
    rfl

theorem data_injective (a b : String) (h : a.data = b.data) : a = b :=
  congrArg String.mk h

theorem strip_eq_data (p : Char → Bool) (s : String)
    (h : String.mk (stripList p s.data) = s) : stripList p s.data = s.data :=
  congrArg String.data h

theorem intercalate_cons_cons (sep : Char) (x y : List Char) (ys : List (List Char)) :
    [sep].intercalate (x :: y :: ys) = x ++ sep :: [sep].intercalate (y :: ys) := by
  simp [List.intercalate, List.intersperse]

theorem intercalate_single (sep : Char) (x : List Char) :
    [sep].intercalate [x] = x := by
  simp [List.intercalate]

theorem pySplit_pyJoin (c : Char) (ys : List String) (hys : ys ≠ [])
    (h : ∀ y ∈ ys, c ∉ y.data) :
    pySplit c (pyJoin c ys) = ys := by
  unfold pySplit
  rw [show (pyJoin c ys).data = [c].intercalate (ys.map String.data) from rfl]
  rw [List.splitOn_intercalate (ys.map String.data) c (by
      intro l hl
      obtain ⟨y, hy, rfl⟩ := List.mem_map.mp hl
      exact h y hy) (by simpa using hys)]
  rw [List.map_map]
  have hid : (List.asString ∘ String.data) = id := by
    funext y
    rfl
  rw [hid, List.map_id]

theorem pyJoin_cons_ne (c : Char) (x : String) (xs : List String) (h : xs ≠ []) :
    pyJoin c (x :: xs) = x ++ ⟨[c]⟩ ++ pyJoin c xs := by
  cases xs with
  | nil => exact absurd rfl h
  | cons y ys =>
    apply data_injective
    rw [show (pyJoin c (x :: y :: ys)).data =
        [c].intercalate (x.data :: y.data :: (ys.map String.data)) from rfl]
    rw [intercalate_cons_cons]
    rw [String.data_append, String.data_append]
    rw [show (pyJoin c (y :: ys)).data =
        [c].intercalate (y.data :: (ys.map String.data)) from rfl,
      List.append_assoc]
    rfl

theorem head?_intercalate_cons (sep : Char) (x : List Char) (xs : List (List Char))
    (hx : x ≠ []) :
    ([sep].intercalate (x :: xs)).head? = x.head? := by
  cases xs with
  | nil => rw [intercalate_single]
  | cons y ys => rw [intercalate_cons_cons, List.head?_append_of_ne_nil x hx]

theorem getLast?_intercalate_pred (p : Char → Bool) (sep : Char) (hsep : p sep = false)
    (ls : List (List Char))
    (h : ∀ l ∈ ls, ∀ a, l.getLast? = some a → p a = false) :
    ∀ a, ([sep].intercalate ls).getLast? = some a → p a = false := by
  induction ls with
  | nil =>
    intro a ha
    simp [List.intercalate] at ha
  | cons x xs ih =>
    cases xs with
    | nil =>
      intro a ha
      rw [intercalate_single] at ha
      exact h x (by simp) a ha
    | cons y ys =>
      intro a ha
      rw [intercalate_cons_cons,
        List.getLast?_append_of_ne_nil x (by simp)] at ha
      cases hT : [sep].intercalate (y :: ys) with
      | nil =>
        rw [hT] at ha
        have haeq : sep = a := by simpa using ha
        rw [← haeq]
        exact hsep
      | cons t ts =>
        rw [hT] at ha
        have ha' : ([sep].intercalate (y :: ys)).getLast? = some a := by
          rw [hT]
          simpa using ha
        exact ih (fun l hl => h l (List.mem_cons_of_mem x hl)) a ha'

theorem headerOut_facts (h : String) (n : Nat) (hne : h ≠ "") :
    ∃ h', headerOut (some h) n = [h'] ∧
      pyStartsWith "##" (pyStrip h') = false := by
  unfold headerOut
  dsimp only
  rw [if_neg hne]
  cases hsp : pySplitWs (pyStrip h) with
  | nil =>
    refine ⟨h, rfl, ?_⟩
    have haux : wsSplitAux (pyStrip h).data [] = [] := by
      unfold pySplitWs at hsp
      exact List.map_eq_nil_iff.mp hsp
    have hws : ∀ c ∈ (pyStrip h).data, c.isWhitespace = true :=
      (wsSplitAux_eq_nil _ [] haux).2
    cases hd : (pyStrip h).data with
    | nil =>
      unfold pyStartsWith
      rw [hd]
      rfl
    | cons a rest =>
      apply not_startsWith_of_head '#' _ _ ['#'] rfl
      intro b hb
      rw [hd] at hb
      simp only [List.head?_cons, Option.some.injEq] at hb
      subst hb
      have haws : a.isWhitespace = true := hws a (by
        rw [hd]
        exact List.mem_cons_self _ _)
      intro hcontra
      rw [hcontra] at haws
      exact absurd haws (by decide)
  | cons t ts =>
    refine ⟨pyJoin ' ' (natToStr n :: ts), rfl, ?_⟩
    have hnn : (natToStr n).data ≠ [] := natToStrAux_ne_nil (n + 1) n (by omega)
    cases hnd : (natToStr n).data with
    | nil => exact absurd hnd hnn
    | cons d ds =>
      have hd_mem : d ∈ "0123456789".data := by
        apply natToStrAux_digits (n + 1) n
        show d ∈ natToStrAux (n + 1) n
        rw [show natToStrAux (n + 1) n = (natToStr n).data from rfl, hnd]
        exact List.mem_cons_self _ _
      obtain ⟨hdws, hdhash⟩ := digit_char_props d hd_mem
      have hjoin : (pyJoin ' ' (natToStr n :: ts)).data.head? = some d := by
        rw [show (pyJoin ' ' (natToStr n :: ts)).data =
          [' '].intercalate ((natToStr n).data :: ts.map String.data) from rfl]
        rw [head?_intercalate_cons ' ' _ _ (by rw [hnd]; exact List.cons_ne_nil d ds)]
        rw [hnd]
        rfl
      obtain ⟨rest', hrest⟩ : ∃ r, (pyJoin ' ' (natToStr n :: ts)).data = d :: r := by
        cases hJ : (pyJoin ' ' (natToStr n :: ts)).data with
        | nil =>
          rw [hJ] at hjoin
          simp at hjoin
        | cons x xs =>
          rw [hJ] at hjoin
          simp only [List.head?_cons, Option.some.injEq] at hjoin
          exact ⟨xs, by rw [hjoin]⟩
      apply not_startsWith_of_head '#' _ _ ['#'] rfl
      intro b hb
      rw [show (pyStrip (pyJoin ' ' (natToStr n :: ts))).data =
        stripList Char.isWhitespace ((pyJoin ' ' (natToStr n :: ts)).data) from rfl,
        hrest, stripList_cons_of_neg _ _ _ hdws] at hb
      simp only [List.head?_cons, Option.some.injEq] at hb
      subst hb
      intro hcontra
      rw [hcontra] at hdhash
      exact hdhash rfl

theorem forall_mem_zipWith {α β γ : Type} (g : α → β → γ) (as : List α) (bs : List β)
    (P : γ → Prop) (h : ∀ a ∈ as, ∀ b ∈ bs, P (g a b)) :
    ∀ x ∈ List.zipWith g as bs, P x := by
  induction as generalizing bs with
  | nil =>
    intro x hx
    simp at hx
  | cons a as ih =>
    cases bs with
    | nil =>
      intro x hx
      simp at hx
    | cons b bs' =>
      intro x hx
      simp only [List.zipWith_cons_cons] at hx
      rcases List.mem_cons.mp hx with rfl | hx'
      · exact h a (List.mem_cons_self _ _) b (List.mem_cons_self _ _)
      · exact ih bs' (fun a' ha' b' hb' =>
          h a' (List.mem_cons_of_mem _ ha') b' (List.mem_cons_of_mem _ hb')) x hx'

theorem stripQ_formatVal (q : List String) (c v : String) (hv : cleanVal v) :
    stripQ (formatVal q c v) = v := by
  unfold formatVal
  by_cases hc : c ∈ q
  · rw [if_pos hc]
    apply data_injective
    rw [show (stripQ ("\"" ++ v ++ "\"")).data =
      stripList (· == '"') (("\"" ++ v ++ "\"").data) from rfl]
    have hdata : ("\"" ++ v ++ "\"").data =
        List.replicate 1 '"' ++ v.data ++ List.replicate 1 '"' := by
      simp [String.data_append]
    rw [hdata, stripList_wrap _ '"' (by decide) 1 1 v.data
      (boundary_head_of_stripList_eq _ _ (strip_eq_data _ _ hv.2.1))
      (boundary_last_of_stripList_eq _ _ (strip_eq_data _ _ hv.2.1))]
  · rw [if_neg hc]
    exact hv.2.1

theorem map_stripQ_zipWith (q : List String) (cols r : List String)
    (hlen : r.length = cols.length) (hv : ∀ v ∈ r, cleanVal v) :
    (List.zipWith (formatVal q) cols r).map stripQ = r := by
  induction cols generalizing r with
  | nil =>
    cases r with
    | nil => rfl
    | cons v vs => simp at hlen
  | cons c cs ih =>
    cases r with
    | nil => simp at hlen
    | cons v vs =>
      simp only [List.zipWith_cons_cons, List.map_cons]
      rw [stripQ_formatVal q c v (hv v (List.mem_cons_self _ _)),
        ih vs (by simpa using hlen)
          (fun x hx => hv x (List.mem_cons_of_mem _ hx))]

theorem formatVal_props (q : List String) (c v : String) (hv : cleanVal v) :
    ',' ∉ (formatVal q c v).data ∧
    (∀ a, (formatVal q c v).data.getLast? = some a → a.isWhitespace = false) := by
  unfold formatVal
  by_cases hc : c ∈ q
  · rw [if_pos hc]
    constructor
    · intro hmem
      simp only [String.data_append] at hmem
      rcases List.mem_append.mp hmem with h1 | h2
      · rcases List.mem_append.mp h1 with h3 | h4
        · simp at h3
        · exact hv.2.2 h4
      · simp at h2
    · intro a ha
      have hlast : (("\"" ++ v ++ "\"").data).getLast? = some '"' := by
        rw [show ("\"" ++ v ++ "\"").data = ("\"" ++ v).data ++ ['"'] from by
          simp [String.data_append]]
        exact List.getLast?_concat _
      rw [hlast] at ha
      simp only [Option.some.injEq] at ha
      rw [← ha]
      decide
  · rw [if_neg hc]
    exact ⟨hv.2.2,
      boundary_last_of_stripList_eq _ _ (strip_eq_data _ _ hv.1)⟩

theorem dataLine_facts (qset : List String) (cols r : List String)
    (hcols : cols ≠ []) (hlen : r.length = cols.length)
    (hv : ∀ v ∈ r, cleanVal v) :
    pyStrip ("*," ++ pyJoin ',' (List.zipWith (formatVal qset) cols r)) =
      "*," ++ pyJoin ',' (List.zipWith (formatVal qset) cols r) ∧
    pyStartsWith "##"
      (pyStrip ("*," ++ pyJoin ',' (List.zipWith (formatVal qset) cols r))) = false ∧
    keptLine cols ("*," ++ pyJoin ',' (List.zipWith (formatVal qset) cols r)) = true ∧
    rowOf ("*," ++ pyJoin ',' (List.zipWith (formatVal qset) cols r)) = r := by
  have hfmtlen : (List.zipWith (formatVal qset) cols r).length = cols.length := by
    rw [List.length_zipWith, hlen, min_self]
  have hfmtne : List.zipWith (formatVal qset) cols r ≠ [] := by
    intro hE
    rw [hE] at hfmtlen
    simp only [List.length_nil] at hfmtlen
    exact hcols (List.length_eq_zero.mp hfmtlen.symm)
  have hdl : "*," ++ pyJoin ',' (List.zipWith (formatVal qset) cols r) =
      pyJoin ',' ("*" :: List.zipWith (formatVal qset) cols r) := by
    rw [pyJoin_cons_ne ',' "*" _ hfmtne]
    apply data_injective
    simp [String.data_append]
  have hprops : ∀ f ∈ ("*" :: List.zipWith (formatVal qset) cols r),
      ',' ∉ f.data ∧ (∀ a, f.data.getLast? = some a → a.isWhitespace = false) := by
    intro f hf
    rcases List.mem_cons.mp hf with rfl | hf'
    · exact ⟨by decide, by
        intro a ha
        have h2 : '*' = a := by simpa using ha
        rw [← h2]
        decide⟩
    · exact forall_mem_zipWith (formatVal qset) cols r
        (fun x => ',' ∉ x.data ∧
          ∀ a, x.data.getLast? = some a → a.isWhitespace = false)
        (fun c hc v hvr => formatVal_props qset c v (hv v hvr)) f hf'
  have hdldata : ("*," ++ pyJoin ',' (List.zipWith (formatVal qset) cols r)).data =
      [','].intercalate (("*" :: List.zipWith (formatVal qset) cols r).map String.data) := by
    rw [hdl]
    rfl
  have hhead : ("*," ++ pyJoin ','
      (List.zipWith (formatVal qset) cols r)).data.head? = some '*' := by
    rw [hdldata]
    rw [show ("*" :: List.zipWith (formatVal qset) cols r).map String.data =
      ['*'] :: (List.zipWith (formatVal qset) cols r).map String.data from rfl]
    rw [head?_intercalate_cons ',' _ _ (by simp)]
    rfl
  obtain ⟨dtail, hdcons⟩ : ∃ t,
      ("*," ++ pyJoin ',' (List.zipWith (formatVal qset) cols r)).data = '*' :: t := by
    cases hJ : ("*," ++ pyJoin ',' (List.zipWith (formatVal qset) cols r)).data with
    | nil =>
      rw [hJ] at hhead
      simp at hhead
    | cons x xs =>
      rw [hJ] at hhead
      simp only [List.head?_cons, Option.some.injEq] at hhead
      exact ⟨xs, by rw [hhead]⟩
  have hstrip : pyStrip ("*," ++ pyJoin ',' (List.zipWith (formatVal qset) cols r)) =
      "*," ++ pyJoin ',' (List.zipWith (formatVal qset) cols r) := by
    apply data_injective
    rw [show (pyStrip ("*," ++ pyJoin ',' (List.zipWith (formatVal qset) cols r))).data =
      stripList Char.isWhitespace
        (("*," ++ pyJoin ',' (List.zipWith (formatVal qset) cols r)).data) from rfl]
    apply stripList_eq_self
    · intro a ha
      rw [hdcons] at ha
      simp only [List.head?_cons, Option.some.injEq] at ha
      rw [← ha]
      decide
    · intro a ha
      rw [hdldata] at ha
      refine getLast?_intercalate_pred _ ',' (by decide) _ ?_ a ha
      intro l hl
      obtain ⟨f, hf, rfl⟩ := List.mem_map.mp hl
      exact (hprops f hf).2
  have hne : "*," ++ pyJoin ',' (List.zipWith (formatVal qset) cols r) ≠ "" := by
    intro hE
    have := congrArg String.data hE
    rw [hdcons] at this
    simp at this
  have hsplit : pySplit ','
      ("*," ++ pyJoin ',' (List.zipWith (formatVal qset) cols r)) =
      "*" :: List.zipWith (formatVal qset) cols r := by
    rw [hdl]
    exact pySplit_pyJoin ',' _ (by simp) (fun y hy => (hprops y hy).1)
  have hnothash : pyStartsWith "#"
      ("*," ++ pyJoin ',' (List.zipWith (formatVal qset) cols r)) = false := by
    apply not_startsWith_of_head '#' _ _ []
    · rfl
    · intro a ha
      rw [hdcons] at ha
      simp only [List.head?_cons, Option.some.injEq] at ha
      rw [← ha]
      decide
  refine ⟨hstrip, ?_, ?_, ?_⟩
  · rw [hstrip]
    apply not_startsWith_of_head '#' _ _ ['#']
    · rfl
    · intro a ha
      rw [hdcons] at ha
      simp only [List.head?_cons, Option.some.injEq] at ha
      rw [← ha]
      decide
  · unfold keptLine
    dsimp only
    rw [hstrip]
    rw [if_neg (by
      intro hOr
      rcases hOr with h1 | h2
      · exact hne h1
      · rw [hnothash] at h2
        exact Bool.false_ne_true h2)]
    rw [hsplit]
    dsimp only
    rw [if_pos (show pyStartsWith "*" "*" = true by decide)]
    rw [map_stripQ_zipWith qset cols r hlen hv]
    have hrne : r ≠ [] := by
      intro hE
      rw [hE] at hlen
      simp only [List.length_nil] at hlen
      exact hcols (List.length_eq_zero.mp hlen.symm)
    simp [hrne, hcols, hlen]
  · unfold rowOf
    rw [hstrip, hsplit]
    exact map_stripQ_zipWith qset cols r hlen hv

theorem colLine_facts (m : String) (cols : List String)
    (hm : m ≠ "") (hmtok : cleanTok m)
    (hcols : cols ≠ []) (hct : ∀ c ∈ cols, cleanTok c) :
    colDecl (colLineOut (some m) cols) = some (m, cols) ∧
    pyStartsWith "##" (pyStrip (colLineOut (some m) cols)) = false := by
  have hout : colLineOut (some m) cols = "!" ++ m ++ "," ++ pyJoin ',' cols := by
    unfold colLineOut
    dsimp only
    rw [if_pos hm]
  have hmdata : ("!" ++ m).data = '!' :: m.data := rfl
  have hmne : m.data ≠ [] := by
    intro hE
    exact hm (data_injective m "" hE)
  have hLeq : colLineOut (some m) cols = pyJoin ',' (("!" ++ m) :: cols) := by
    rw [hout, pyJoin_cons_ne ',' ("!" ++ m) cols hcols]
  have hprops : ∀ f ∈ ("!" ++ m) :: cols,
      ',' ∉ f.data ∧ (∀ a, f.data.getLast? = some a → a.isWhitespace = false) := by
    intro f hf
    rcases List.mem_cons.mp hf with rfl | hf'
    · constructor
      · intro hmem
        rw [hmdata] at hmem
        rcases List.mem_cons.mp hmem with h1 | h2
        · exact absurd h1 (by decide)
        · exact hmtok.2.2 h2
      · intro a ha
        rw [hmdata, show ('!' :: m.data) = ['!'] ++ m.data from rfl,
          List.getLast?_append_of_ne_nil ['!'] hmne] at ha
        exact boundary_last_of_stripList_eq _ _ (strip_eq_data _ _ hmtok.1) a ha
    · exact ⟨(hct f hf').2.2,
        boundary_last_of_stripList_eq _ _ (strip_eq_data _ _ (hct f hf').1)⟩
  have hLdata : (colLineOut (some m) cols).data =
      [','].intercalate ((("!" ++ m).data) :: cols.map String.data) := by
    rw [hLeq]
    rfl
  have hhead : (colLineOut (some m) cols).data.head? = some '!' := by
    rw [hLdata, head?_intercalate_cons ',' _ _ (by rw [hmdata]; exact List.cons_ne_nil _ _),
      hmdata]
    rfl
  obtain ⟨ltail, hlcons⟩ : ∃ t, (colLineOut (some m) cols).data = '!' :: t := by
    cases hJ : (colLineOut (some m) cols).data with
    | nil =>
      rw [hJ] at hhead
      simp at hhead
    | cons x xs =>
      rw [hJ] at hhead
      simp only [List.head?_cons, Option.some.injEq] at hhead
      exact ⟨xs, by rw [hhead]⟩
  have hstrip : pyStrip (colLineOut (some m) cols) = colLineOut (some m) cols := by
    apply data_injective
    rw [show (pyStrip (colLineOut (some m) cols)).data =
      stripList Char.isWhitespace ((colLineOut (some m) cols).data) from rfl]
    apply stripList_eq_self
    · intro a ha
      rw [hlcons] at ha
      simp only [List.head?_cons, Option.some.injEq] at ha
      rw [← ha]
      decide
    · intro a ha
      rw [hLdata] at ha
      refine getLast?_intercalate_pred _ ',' (by decide) _ ?_ a ha
      intro l hl
      rcases List.mem_cons.mp hl with rfl | hl'
      · exact (hprops ("!" ++ m) (List.mem_cons_self _ _)).2
      · obtain ⟨f, hf, rfl⟩ := List.mem_map.mp hl'
        exact (hprops f (List.mem_cons_of_mem _ hf)).2
  have hne : colLineOut (some m) cols ≠ "" := by
    intro hE
    have := congrArg String.data hE
    rw [hlcons] at this
    simp at this
  have hnothash : pyStartsWith "#" (colLineOut (some m) cols) = false := by
    apply not_startsWith_of_head '#' _ _ []
    · rfl
    · intro a ha
      rw [hlcons] at ha
      simp only [List.head?_cons, Option.some.injEq] at ha
      rw [← ha]
      decide
  have hsplit : pySplit ',' (colLineOut (some m) cols) = ("!" ++ m) :: cols := by
    rw [hLeq]
    exact pySplit_pyJoin ',' _ (by simp) (fun y hy => (hprops y hy).1)
  have hfirst : pyStrip (stripBang ("!" ++ m)) = m := by
    have hsb : stripBang ("!" ++ m) = m := by
      apply data_injective
      rw [show (stripBang ("!" ++ m)).data =
        stripList (· == '!') (("!" ++ m).data) from rfl, hmdata]
      rw [show ('!' :: m.data) =
        List.replicate 1 '!' ++ m.data ++ List.replicate 0 '!' from by simp]
      rw [stripList_wrap _ '!' (by decide) 1 0 m.data
        (boundary_head_of_stripList_eq _ _ (strip_eq_data _ _ hmtok.2.1))
        (boundary_last_of_stripList_eq _ _ (strip_eq_data _ _ hmtok.2.1))]
    rw [hsb]
    exact hmtok.1
  have hmap : cols.map (fun p => pyStrip (stripBang p)) = cols := by
    have hcongr : ∀ c ∈ cols, pyStrip (stripBang c) = c := by
      intro c hc
      rw [(hct c hc).2.1]
      exact (hct c hc).1
    calc cols.map (fun p => pyStrip (stripBang p)) = cols.map id :=
        List.map_congr_left hcongr
      _ = cols := List.map_id cols
  constructor
  · unfold colDecl
    dsimp only
    rw [hstrip]
    rw [if_neg (by
      intro hOr
      rcases hOr with h1 | h2
      · exact hne h1
      · rw [hnothash] at h2
        exact Bool.false_ne_true h2)]
    rw [hsplit]
    dsimp only
    rw [if_pos (show pyStartsWith "!" ("!" ++ m) = true by
      unfold pyStartsWith
      rw [hmdata]
      simp [List.isPrefixOf])]
    simp only [List.map_cons, hfirst, hmap]
  · rw [hstrip]
    apply not_startsWith_of_head '#' _ _ ['#']
    · rfl
    · intro a ha
      rw [hlcons] at ha
      simp only [List.head?_cons, Option.some.injEq] at ha
      rw [← ha]
      decide

theorem parseLine_colDecl (st : PState) (l : String) (m : String) (cs : List String)
    (hst : st.columns = none) (h : colDecl l = some (m, cs)) :
    parseLine st l = .ok { st with marker := some m, columns := some cs } := by
  unfold colDecl at h
  unfold parseLine
  by_cases hb : pyStrip l = "" ∨ pyStartsWith "#" (pyStrip l) = true
  · rw [if_pos hb] at h
    exact absurd h (by simp)
  · rw [if_neg hb] at h
    rw [if_neg hb]
    cases hsplit : pySplit ',' (pyStrip l) with
    | nil =>
      rw [hsplit] at h
      exact absurd h (by simp)
    | cons p0 rest =>
      rw [hsplit] at h
      dsimp only at h ⊢
      by_cases hbang : pyStartsWith "!" p0 = true
      · rw [if_pos hbang] at h
        rw [if_pos ⟨by simp [hst], hbang⟩]
        simp only [List.map_cons, Option.some.injEq, Prod.mk.injEq] at h
        obtain ⟨hm, hcs⟩ := h
        simp only [List.map_cons, hm, hcs]
      · rw [if_neg hbang] at h
        exact absurd h (by simp)

theorem parseLine_columns_some (st : PState) (cols : List String) (l : String)
    (hst : st.columns = some cols) :
    ∃ fr q, parseLine st l = .ok { st with
      firstRow := fr
      quoted := q
      data := st.data ++ (if keptLine cols l then [rowOf l] else []) } := by
  unfold parseLine keptLine
  by_cases hb : pyStrip l = "" ∨ pyStartsWith "#" (pyStrip l) = true
  · refine ⟨st.firstRow, st.quoted, ?_⟩
    rw [if_pos hb, if_pos hb]
    simp
  · rw [if_neg hb, if_neg hb]
    cases hsplit : pySplit ',' (pyStrip l) with
    | nil =>
      refine ⟨st.firstRow, st.quoted, ?_⟩
      simp
    | cons p0 rest =>
      dsimp only
      have hcond : ¬(st.columns.isNone = true ∧ pyStartsWith "!" p0 = true) := by
        simp [hst]
      rw [if_neg hcond]
      by_cases hstar : pyStartsWith "*" p0 = true
      · rw [if_pos hstar, if_pos hstar]
        rw [hst]
        simp only [rowOf, hsplit, List.tail_cons]
        by_cases hguard : rest ≠ [] ∧ cols ≠ [] ∧ rest.length = cols.length
        · rw [if_pos (show List.map stripQ rest ≠ [] ∧ cols ≠ [] ∧
              (List.map stripQ rest).length = cols.length by simpa using hguard)]
          by_cases hfr : st.firstRow = true
          · refine ⟨false, st.quoted ++ quotedNames cols rest, ?_⟩
            rw [if_pos hfr]
            simp [hguard, hst]
          · refine ⟨st.firstRow, st.quoted, ?_⟩
            rw [if_neg hfr]
            simp [hguard, hst]
        · rw [if_neg (show ¬(List.map stripQ rest ≠ [] ∧ cols ≠ [] ∧
              (List.map stripQ rest).length = cols.length) by simpa using hguard)]
          by_cases hfr : st.firstRow = true
          · refine ⟨false, st.quoted ++ quotedNames cols rest, ?_⟩
            rw [if_pos hfr]
            simp [hguard, hst]
          · refine ⟨st.firstRow, st.quoted, ?_⟩
            rw [if_neg hfr]
            simp only [hguard, if_neg, List.append_nil, Except.ok.injEq]
            simp [hguard]
            rw [← hst]
      · rw [if_neg hstar, if_neg hstar]
        refine ⟨st.firstRow, st.quoted, ?_⟩
        simp

theorem parseLines_columns_some (ls : List String) (st : PState) (cols : List String)
    (hst : st.columns = some cols) :
    ∃ fr q, parseLines st ls = .ok { st with
      firstRow := fr
      quoted := q
      data := st.data ++ (ls.filter (keptLine cols)).map rowOf } := by
  induction ls generalizing st with
  | nil =>
    refine ⟨st.firstRow, st.quoted, ?_⟩
    simp [parseLines]
  | cons l ls ih =>
    obtain ⟨fr1, q1, h1⟩ := parseLine_columns_some st cols l hst
    obtain ⟨fr2, q2, h2⟩ := ih { st with
      firstRow := fr1
      quoted := q1
      data := st.data ++ (if keptLine cols l then [rowOf l] else []) } hst
    refine ⟨fr2, q2, ?_⟩
    rw [parseLines_cons, h1]
    show parseLines _ ls = _
    rw [h2]
    by_cases hk : keptLine cols l = true
    · simp [List.filter_cons, hk, List.append_assoc]
    · simp [List.filter_cons, hk]

/-- Full run of the parser on a file whose column-declaration line is
preceded only by ignorable lines: the parse succeeds, the marker and the
columns are those of the declaration line, the footer is the tail from the
first `##` line, and the kept rows are exactly the well-shaped data lines
of the data region, in order. -/
theorem readRptFile_structured (header : String) (pre : List String) (colLine : String)
    (rest : List String) (m : String) (cs : List String)
    (hhead : pyStartsWith "##" (pyStrip header) = false)
    (hpre : ∀ l ∈ pre, inertLine l ∧ pyStartsWith "##" (pyStrip l) = false)
    (hcol : colDecl colLine = some (m, cs))
    (hcolnf : pyStartsWith "##" (pyStrip colLine) = false) :
    ∃ q, readRptFile (header :: (pre ++ colLine :: rest)) = .ok (.full
      ⟨mkTable cs (((regionData rest).filter (keptLine cs)).map rowOf),
        some header, regionFooter rest, q, some m⟩) := by
  have hfsl : footerStart (header :: (pre ++ colLine :: rest)) =
      (footerStart rest).map (fun i => i + 1 + pre.length + 1) := by
    rw [footerStart_cons_neg _ _ hhead,
      footerStart_append_neg pre _ (fun l hl => (hpre l hl).2),
      footerStart_cons_neg _ _ hcolnf]
    cases footerStart rest <;> simp
  have hlen : ¬((header :: (pre ++ colLine :: rest)).length ≤ 1) := by
    simp only [List.length_cons, List.length_append]
    omega
  cases hfs : footerStart rest with
  | none =>
    obtain ⟨fr, q, hpl⟩ := parseLines_columns_some rest
      { marker := some m, columns := some cs, firstRow := true, quoted := [],
        data := [] } cs rfl
    refine ⟨q, ?_⟩
    unfold readRptFile
    rw [if_neg hlen, hfsl, hfs]
    dsimp only [Option.map_none']
    rw [List.drop_one, List.tail_cons, parseLines_append,
      parseLines_inert _ pre (fun l hl => (hpre l hl).1)]
    show (match parseLines
        { marker := none, columns := none, firstRow := true, quoted := [],
          data := [] } (colLine :: rest) with
      | .error e => Except.error e
      | .ok st => _) = _
    rw [parseLines_cons,
      parseLine_colDecl _ colLine m cs rfl hcol]
    show (match parseLines
        { marker := some m, columns := some cs, firstRow := true, quoted := [],
          data := [] } rest with
      | .error e => Except.error e
      | .ok st => _) = _
    rw [hpl]
    dsimp only
    simp only [regionData, regionFooter, hfs, List.nil_append, mkTable,
      List.head?_cons]
  | some i =>
    obtain ⟨fr, q, hpl⟩ := parseLines_columns_some (rest.take i)
      { marker := some m, columns := some cs, firstRow := true, quoted := [],
        data := [] } cs rfl
    refine ⟨q, ?_⟩
    unfold readRptFile
    rw [if_neg hlen, hfsl, hfs]
    dsimp only [Option.map_some']
    have hdrop : (header :: (pre ++ colLine :: rest)).drop (i + 1 + pre.length + 1) =
        rest.drop i := by
      have h1 : i + 1 + pre.length + 1 = (i + 1 + pre.length) + 1 := rfl
      rw [h1, List.drop_succ_cons]
      have h2 : i + 1 + pre.length = pre.length + (i + 1) := by omega
      rw [h2, List.drop_append (i + 1), List.drop_succ_cons]
    have htake : ((header :: (pre ++ colLine :: rest)).take
        (i + 1 + pre.length + 1)).drop 1 = pre ++ colLine :: rest.take i := by
      have h1 : i + 1 + pre.length + 1 = (i + 1 + pre.length) + 1 := rfl
      rw [h1, List.take_succ_cons, List.drop_one, List.tail_cons]
      have h2 : i + 1 + pre.length = pre.length + (i + 1) := by omega
      rw [h2, List.take_append (i + 1), List.take_succ_cons]
    rw [hdrop, htake, parseLines_append,
      parseLines_inert _ pre (fun l hl => (hpre l hl).1)]
    show (match parseLines
        { marker := none, columns := none, firstRow := true, quoted := [],
          data := [] } (colLine :: rest.take i) with
      | .error e => Except.error e
      | .ok st => _) = _
    rw [parseLines_cons,
      parseLine_colDecl _ colLine m cs rfl hcol]
    show (match parseLines
        { marker := some m, columns := some cs, firstRow := true, quoted := [],
          data := [] } (rest.take i) with
      | .error e => Except.error e
      | .ok st => _) = _
    rw [hpl]
    dsimp only
    simp only [regionData, regionFooter, hfs, List.nil_append, mkTable,
      List.head?_cons]

end Scode

deriving instance DecidableEq for Except

namespace Scode

/-! ## Claim C2: `smart_match` semantics -/

/-- C2: for every series and target, `smart_match` selects per row exactly
as the specification describes — when the target coerces to a number,
numerically for rows that coerce and by string equality for rows that do
not; otherwise by string equality throughout.  In particular
`smart_match(["5","5x","abc"], "5")` selects only row 0. -/
theorem smart_match_selects_numeric_or_string (series : List String) (target : String) :
    smartMatch series target = series.map (fun v => specSmartMatch v target) ∧
    smartMatch ["5", "5x", "abc"] "5" = [true, false, false] := by
  refine ⟨?_, by decide⟩
  cases h : parseNum target <;> simp [smartMatch, specSmartMatch, h]

/-! ## Claim C4: quote stripping on data fields (corrected) -/

/-- C4 counterexample: the field `""X""` in a data row parses to `X`, not
to `"X"` — `strip('"')` removes every boundary quote, not one pair. -/
theorem quote_strip_single_pair_cex :
    readRptFile ["1 h", "!1,A", "*,\"\"X\"\""] =
      .ok (.full ⟨⟨["A"], [["X"]]⟩, some "1 h", [], ["A"], some "1"⟩) ∧
    ("X" : String) ≠ "\"X\"" := by
  refine ⟨by decide, by decide⟩

/-- C4 amended: a data field is parsed by removing all leading and all
trailing double-quote characters, so any depth of wrapping quotes is
removed, and a quote on only one side is removed as well. -/
theorem quote_strip_removes_all_boundary_quotes (n : Nat) (v : String)
    (hs : pyStartsWith "\"" v = false) (he : pyEndsWith "\"" v = false) :
    stripQ (quotes n ++ v ++ quotes n) = v ∧
    stripQ ("\"" ++ v) = v ∧ stripQ (v ++ "\"") = v := by
  have hhead : ∀ c, v.data.head? = some c → (c == '"') = false := by
    intro c hc
    by_contra hcontra
    simp only [Bool.not_eq_false, beq_iff_eq] at hcontra
    subst hcontra
    have : ∃ t, v.data = '"' :: t := by
      cases hv : v.data with
      | nil => rw [hv] at hc; simp at hc
      | cons a t =>
        rw [hv] at hc
        simp only [List.head?_cons, Option.some.injEq] at hc
        exact ⟨t, by rw [hc]⟩
    rw [← pyStartsWith_char] at this
    rw [show (⟨['"']⟩ : String) = "\"" from rfl] at this
    rw [hs] at this
    exact absurd this (by simp)
  have hlast : ∀ c, v.data.getLast? = some c → (c == '"') = false := by
    intro c hc
    by_contra hcontra
    simp only [Bool.not_eq_false, beq_iff_eq] at hcontra
    subst hcontra
    have : ∃ t, v.data = t ++ ['"'] := by
      rcases List.getLast?_eq_some_iff.mp hc with ⟨t, ht⟩
      exact ⟨t, ht⟩
    rw [← pyEndsWith_char] at this
    rw [show (⟨['"']⟩ : String) = "\"" from rfl] at this
    rw [he] at this
    exact absurd this (by simp)
  refine ⟨?_, ?_, ?_⟩
  · show String.mk (stripList (· == '"')
      ((quotes n ++ v ++ quotes n).data)) = v
    have hdata : (quotes n ++ v ++ quotes n).data =
        List.replicate n '"' ++ v.data ++ List.replicate n '"' := by
      simp [quotes, String.data_append]
    rw [hdata, stripList_wrap (· == '"') '"' (by simp) n n v.data hhead hlast]
  · show String.mk (stripList (· == '"') (("\"" ++ v).data)) = v
    have hdata : ("\"" ++ v).data =
        List.replicate 1 '"' ++ v.data ++ List.replicate 0 '"' := by
      simp [String.data_append]
    rw [hdata, stripList_wrap (· == '"') '"' (by simp) 1 0 v.data hhead hlast]
  · show String.mk (stripList (· == '"') ((v ++ "\"").data)) = v
    have hdata : (v ++ "\"").data =
        List.replicate 0 '"' ++ v.data ++ List.replicate 1 '"' := by
      simp [String.data_append]
    rw [hdata, stripList_wrap (· == '"') '"' (by simp) 0 1 v.data hhead hlast]

/-- C4 amended, witness at `n = 2`, `v = "X"`. -/
theorem quote_strip_removes_all_boundary_quotes_witness :
    stripQ (quotes 2 ++ "X" ++ quotes 2) = "X" ∧
    stripQ ("\"" ++ "X") = "X" ∧ stripQ ("X" ++ "\"") = "X" :=
  quote_strip_removes_all_boundary_quotes 2 "X" (by decide) (by decide)

/-! ## Claim C6: fixed add/delete/update group order -/

/-- Crossing filters of two distinct action names is empty. -/
theorem filter_action_cross (x y : String) (hxy : x ≠ y) (l : List UpdateInstr) :
    (l.filter (fun r => r.Action == y)).filter (fun r => r.Action == x) = [] := by
  rw [List.filter_filter]
  apply List.filter_eq_nil_iff.mpr
  intro a _
  simp only [Bool.and_eq_true, beq_iff_eq, not_and]
  intro h1 h2
  exact hxy (h1 ▸ h2 ▸ rfl)

/-- Filtering an action group by its own action is the identity. -/
theorem filter_action_same (x : String) (l : List UpdateInstr) :
    (l.filter (fun r => r.Action == x)).filter (fun r => r.Action == x) =
      l.filter (fun r => r.Action == x) := by
  rw [List.filter_filter]
  apply List.filter_congr
  intro a _
  rw [Bool.and_self]

/-- C6: the update engine gives the same result on the instruction table
as on its reordering that lists all `add` rows, then all `delete` rows,
then all `update` rows — the interleaving of the three kinds in the
instruction table is irrelevant. -/
theorem apply_updates_fixed_group_order (t : Table) (instrs : List UpdateInstr)
    (q : List String) :
    applyUpdates t instrs q =
      applyUpdates t
        (instrs.filter (fun r => r.Action == "add") ++
          instrs.filter (fun r => r.Action == "delete") ++
          instrs.filter (fun r => r.Action == "update")) q := by
  unfold applyUpdates
  rw [List.filter_append, List.filter_append, List.filter_append, List.filter_append,
    List.filter_append, List.filter_append,
    filter_action_same, filter_action_same, filter_action_same,
    filter_action_cross "add" "delete" (by decide),
    filter_action_cross "add" "update" (by decide),
    filter_action_cross "delete" "add" (by decide),
    filter_action_cross "delete" "update" (by decide),
    filter_action_cross "update" "add" (by decide),
    filter_action_cross "update" "delete" (by decide)]
  simp

/-! ## Claim C5: evolution of the quoted-column set (corrected) -/

/-- The quoted-set component after the `add` group: the initial set
extended, in order, by the names of added columns whose value fails
numeric coercion. -/
theorem applyAdd_fold_quoted (adds : List UpdateInstr) (t : Table) (q : List String) :
    (adds.foldl applyAdd (t, q)).2 =
      q ++ (adds.filter (fun r => (parseNum r.NewValue).isNone)).map (·.ColumnName) := by
  induction adds generalizing t q with
  | nil => simp
  | cons r rs ih =>
    rw [List.foldl_cons]
    cases h : parseNum r.NewValue with
    | some d =>
      rw [show applyAdd (t, q) r = (setWholeCol t r.ColumnName r.NewValue, q) by
        simp [applyAdd, h]]
      rw [ih]
      simp [List.filter_cons, h]
    | none =>
      rw [show applyAdd (t, q) r =
          (setWholeCol t r.ColumnName r.NewValue, q ++ [r.ColumnName]) by
        simp [applyAdd, h]]
      rw [ih]
      simp [List.filter_cons, h]

/-- C5 counterexample: an `update` whose `NewValue` fails numeric coercion
does change the target cell but does not put the target column into the
quoted set — the set stays empty, contrary to the claim. -/
theorem update_does_not_extend_quoted_set_cex :
    (applyUpdates ⟨["A"], [["x"]]⟩
        [⟨"update", "A", "hello", none, none, some "x"⟩] []).2 = [] ∧
    parseNum "hello" = none ∧
    (applyUpdates ⟨["A"], [["x"]]⟩
        [⟨"update", "A", "hello", none, none, some "x"⟩] []).1 =
      ⟨["A"], [["hello"]]⟩ := by
  refine ⟨by decide, by decide, by decide⟩

/-- C5 amended: after the engine runs, the quoted set holds exactly the
initially quoted columns plus every column an `add` instruction gave a
`NewValue` that fails numeric coercion; `update` instructions never extend
the set. -/
theorem quoted_set_extended_only_by_add (t : Table) (instrs : List UpdateInstr)
    (q : List String) (c : String) :
    c ∈ (applyUpdates t instrs q).2 ↔
      c ∈ q ∨ ∃ r ∈ instrs, r.Action = "add" ∧ r.ColumnName = c ∧
        parseNum r.NewValue = none := by
  unfold applyUpdates
  rw [applyAdd_fold_quoted]
  simp only [List.mem_append, List.mem_map, List.mem_filter, Option.isNone_iff_eq_none,
    beq_iff_eq]
  constructor
  · rintro (hq | ⟨r, ⟨⟨hr, ha⟩, hn⟩, hc⟩)
    · exact Or.inl hq
    · exact Or.inr ⟨r, hr, ha, hc, hn⟩
  · rintro (hq | ⟨r, hr, ha, hc, hn⟩)
    · exact Or.inl hq
    · exact Or.inr ⟨r, ⟨⟨hr, ha⟩, hn⟩, hc⟩

/-! ## Cell-level characterizations of the table mutations -/

theorem length_smartMatch (s : List String) (tg : String) :
    (smartMatch s tg).length = s.length := by
  cases h : parseNum tg <;> simp [smartMatch, h]

theorem length_getCol (t : Table) (c : String) :
    (getCol t c).length = t.rows.length := by
  simp [getCol]

theorem colIdx_lt (t : Table) (c : String) (hc : c ∈ t.cols) :
    colIdx t c < t.cols.length :=
  List.indexOf_lt_length.mpr hc

theorem colIdx_ne (t : Table) (c c' : String) (hnd : t.cols.Nodup)
    (hc : c ∈ t.cols) (hc' : c' ∈ t.cols) (h : c' ≠ c) :
    colIdx t c' ≠ colIdx t c := by
  intro hidx
  exact h ((List.indexOf_inj hc' hc).mp hidx)

theorem cell_eq (t : Table) (c : String) (i : Nat) (hi : i < t.rows.length) :
    cell t c i = (t.rows[i]).getD (colIdx t c) "" := by
  unfold cell
  congr 1
  rw [List.getD_eq_getElem?_getD, List.getElem?_eq_getElem hi]
  rfl

theorem getD_set (row : List String) (j j' : Nat) (v : String) (hj : j < row.length) :
    (row.set j v).getD j' "" = if j = j' then v else row.getD j' "" := by
  rw [List.getD_eq_getElem?_getD, List.getElem?_set]
  by_cases h : j = j'
  · rw [if_pos h, if_pos (h ▸ hj), if_pos h]
    rfl
  · rw [if_neg h, ← List.getD_eq_getElem?_getD, if_neg h]

theorem setColMask_cell (t : Table) (c : String) (mask : List Bool) (v : String)
    (hwf : t.WF) (hc : c ∈ t.cols) (hm : mask.length = t.rows.length) :
    (setColMask t c mask v).cols = t.cols ∧
    (setColMask t c mask v).rows.length = t.rows.length ∧
    ∀ i, i < t.rows.length → ∀ c', c' ∈ t.cols →
      cell (setColMask t c mask v) c' i =
        if c' = c ∧ mask.getD i false then v else cell t c' i := by
  obtain ⟨hnd, hrect⟩ := hwf
  have hidx : ∀ c'', colIdx (setColMask t c mask v) c'' = colIdx t c'' :=
    fun _ => rfl
  refine ⟨rfl, ?_, ?_⟩
  · show (List.zipWith _ t.rows mask).length = t.rows.length
    rw [List.length_zipWith, hm, min_self]
  · intro i hi c' hc'
    have hrowlen : (t.rows[i]).length = t.cols.length :=
      hrect _ (List.getElem_mem hi)
    have hmlen : i < mask.length := by omega
    have hzlen : i < (setColMask t c mask v).rows.length := by
      show i < (List.zipWith _ t.rows mask).length
      rw [List.length_zipWith, hm, min_self]
      exact hi
    have hrow : (setColMask t c mask v).rows[i] =
        (if mask[i] then (t.rows[i]).set (colIdx t c) v
          else t.rows[i]) := by
      show (List.zipWith _ t.rows mask)[i] = _
      rw [List.getElem_zipWith]
    have hmaskD : mask.getD i false = mask[i] := by
      rw [List.getD_eq_getElem?_getD, List.getElem?_eq_getElem hmlen]
      rfl
    rw [cell_eq _ c' i hzlen, hidx, hrow, cell_eq t c' i hi, hmaskD]
    by_cases hb : mask[i] = true
    · rw [if_pos hb]
      have hjlt : colIdx t c < (t.rows[i]).length := by
        rw [hrowlen]
        exact colIdx_lt t c hc
      rw [getD_set _ _ _ _ hjlt]
      by_cases hcc : c' = c
      · subst hcc
        rw [if_pos rfl, if_pos ⟨rfl, hb⟩]
      · rw [if_neg (colIdx_ne t c' c hnd hc' hc (Ne.symm hcc)),
          if_neg (by simp [hcc])]
    · rw [if_neg hb, if_neg (by simp [hb])]

theorem setWholeCol_cell_mem (t : Table) (c v : String)
    (hwf : t.WF) (hc : c ∈ t.cols) :
    (setWholeCol t c v).cols = t.cols ∧
    (setWholeCol t c v).rows.length = t.rows.length ∧
    ∀ i, i < t.rows.length → ∀ c', c' ∈ t.cols →
      cell (setWholeCol t c v) c' i =
        if c' = c then v else cell t c' i := by
  obtain ⟨hnd, hrect⟩ := hwf
  unfold setWholeCol
  rw [if_pos hc]
  refine ⟨rfl, by simp, ?_⟩
  intro i hi c' hc'
  have hidx : ∀ c'',
      colIdx ⟨t.cols, t.rows.map (fun r => r.set (colIdx t c) v)⟩ c'' =
        colIdx t c'' := fun _ => rfl
  have hmlen : i < (t.rows.map (fun r => r.set (colIdx t c) v)).length := by
    simpa using hi
  have hrow : (⟨t.cols, t.rows.map (fun r => r.set (colIdx t c) v)⟩ :
      Table).rows[i] = (t.rows[i]).set (colIdx t c) v :=
    List.getElem_map _
  rw [cell_eq _ c' i hmlen, hidx, hrow, cell_eq t c' i hi]
  have hjlt : colIdx t c < (t.rows[i]).length := by
    rw [hrect _ (List.getElem_mem hi)]
    exact colIdx_lt t c hc
  rw [getD_set _ _ _ _ hjlt]
  by_cases hcc : c' = c
  · subst hcc
    rw [if_pos rfl, if_pos rfl]
  · rw [if_neg (colIdx_ne t c' c hnd hc' hc (Ne.symm hcc)), if_neg hcc]

/-! ## Claim C3: the three documented update modes -/

/-- C3: for an update instruction whose target column exists — with all of
LookupColumn, LookupValue and CurrentValue present (and the lookup column
existing), exactly the rows matched by both predicates receive `NewValue`;
with only LookupColumn and LookupValue, exactly the lookup matches receive
it regardless of current value; with only CurrentValue, exactly the rows
whose target cell matches receive it; every other cell is unchanged. -/
theorem update_modes_select_expected_rows (t : Table) (r : UpdateInstr)
    (hwf : t.WF) (hcn : r.ColumnName ∈ t.cols) :
    (∀ lc lv cv, r.LookupColumn = some lc → r.LookupValue = some lv →
      r.CurrentValue = some cv → lc ∈ t.cols →
      (applyUpdateInstr t r).cols = t.cols ∧
      (applyUpdateInstr t r).rows.length = t.rows.length ∧
      ∀ i, i < t.rows.length → ∀ c, c ∈ t.cols →
        cell (applyUpdateInstr t r) c i =
          if c = r.ColumnName ∧
            ((andMask (smartMatch (getCol t lc) lv)
              (smartMatch (getCol t r.ColumnName) cv)).getD i false)
          then r.NewValue else cell t c i) ∧
    (∀ lc lv, r.LookupColumn = some lc → r.LookupValue = some lv →
      r.CurrentValue = none → lc ∈ t.cols →
      (applyUpdateInstr t r).cols = t.cols ∧
      (applyUpdateInstr t r).rows.length = t.rows.length ∧
      ∀ i, i < t.rows.length → ∀ c, c ∈ t.cols →
        cell (applyUpdateInstr t r) c i =
          if c = r.ColumnName ∧ ((smartMatch (getCol t lc) lv).getD i false)
          then r.NewValue else cell t c i) ∧
    (∀ cv, r.LookupColumn = none → r.LookupValue = none →
      r.CurrentValue = some cv →
      (applyUpdateInstr t r).cols = t.cols ∧
      (applyUpdateInstr t r).rows.length = t.rows.length ∧
      ∀ i, i < t.rows.length → ∀ c, c ∈ t.cols →
        cell (applyUpdateInstr t r) c i =
          if c = r.ColumnName ∧
            ((smartMatch (getCol t r.ColumnName) cv).getD i false)
          then r.NewValue else cell t c i) := by
  refine ⟨?_, ?_, ?_⟩
  · intro lc lv cv hlc hlv hcv hlcmem
    have happ : applyUpdateInstr t r =
        setColMask t r.ColumnName
          (andMask (smartMatch (getCol t lc) lv)
            (smartMatch (getCol t r.ColumnName) cv)) r.NewValue := by
      unfold applyUpdateInstr
      rw [if_neg (by simpa using hcn)]
      simp [hlc, hlv, hcv, hlcmem]
    have hmlen : (andMask (smartMatch (getCol t lc) lv)
        (smartMatch (getCol t r.ColumnName) cv)).length = t.rows.length := by
      unfold andMask
      rw [List.length_zipWith, length_smartMatch, length_smartMatch,
        length_getCol, length_getCol, min_self]
    rw [happ]
    exact setColMask_cell t r.ColumnName _ r.NewValue hwf hcn hmlen
  · intro lc lv hlc hlv hcv hlcmem
    have happ : applyUpdateInstr t r =
        setColMask t r.ColumnName (smartMatch (getCol t lc) lv) r.NewValue := by
      unfold applyUpdateInstr
      rw [if_neg (by simpa using hcn)]
      simp [hlc, hlv, hcv, hlcmem]
    have hmlen : (smartMatch (getCol t lc) lv).length = t.rows.length := by
      rw [length_smartMatch, length_getCol]
    rw [happ]
    exact setColMask_cell t r.ColumnName _ r.NewValue hwf hcn hmlen
  · intro cv hlc hlv hcv
    have happ : applyUpdateInstr t r =
        setColMask t r.ColumnName (smartMatch (getCol t r.ColumnName) cv)
          r.NewValue := by
      unfold applyUpdateInstr
      rw [if_neg (by simpa using hcn)]
      simp [hlc, hlv, hcv]
    have hmlen : (smartMatch (getCol t r.ColumnName) cv).length = t.rows.length := by
      rw [length_smartMatch, length_getCol]
    rw [happ]
    exact setColMask_cell t r.ColumnName _ r.NewValue hwf hcn hmlen

/-- C3 witness: mode (c) at a concrete table and instruction. -/
theorem update_modes_select_expected_rows_witness :
    cell (applyUpdateInstr ⟨["AMT"], [["100"], ["200"]]⟩
        ⟨"update", "AMT", "999", none, none, some "100"⟩) "AMT" 0 =
      (if ("AMT" : String) = "AMT" ∧
        ((smartMatch (getCol ⟨["AMT"], [["100"], ["200"]]⟩ "AMT") "100").getD 0 false)
      then "999" else cell ⟨["AMT"], [["100"], ["200"]]⟩ "AMT" 0) :=
  ((update_modes_select_expected_rows ⟨["AMT"], [["100"], ["200"]]⟩
      ⟨"update", "AMT", "999", none, none, some "100"⟩
      (by constructor
          · decide
          · intro r hr
            simp only [List.mem_cons, List.not_mem_nil, or_false] at hr
            rcases hr with h | h <;> simp [h])
      (by decide)).2.2 "100" rfl rfl rfl).2.2 0 (by decide) "AMT" (by decide)

/-! ## Claims C9 and C10: missing columns and the undocumented combination -/

/-- C9 counterexample: with LookupColumn present but LookupValue absent
and CurrentValue present, a nonexistent lookup column does not stop the
update — the engine falls to the CurrentValue mode and rows are updated. -/
theorem lookup_column_missing_still_updates_cex :
    applyUpdates ⟨["A"], [["x"]]⟩
        [⟨"update", "A", "y", some "NOPE", none, some "x"⟩] [] =
      (⟨["A"], [["y"]]⟩, []) ∧
    (some "NOPE" : Option String).isSome = true ∧
    ("NOPE" : String) ∉ (["A"] : List String) := by
  refine ⟨by decide, by decide, by decide⟩

/-- C9 amended: an update instruction whose target column is missing
leaves the table unchanged; and when LookupColumn and LookupValue are both
present but the lookup column is missing, the instruction updates no rows;
neither case raises. -/
theorem missing_columns_skip_instruction (t : Table) (r : UpdateInstr) :
    (r.ColumnName ∉ t.cols → applyUpdateInstr t r = t) ∧
    (r.ColumnName ∈ t.cols → r.LookupColumn.isSome = true →
      r.LookupValue.isSome = true → r.LookupColumn.getD "" ∉ t.cols →
      applyUpdateInstr t r = t) := by
  constructor
  · intro h
    unfold applyUpdateInstr
    rw [if_pos h]
  · intro hcn hlc hlv hmiss
    unfold applyUpdateInstr
    rw [if_neg (by simpa using hcn)]
    by_cases hcv : r.CurrentValue.isSome
    · rw [if_pos ⟨hlc, hlv, hcv⟩, if_neg hmiss]
    · rw [if_neg (by simp [hcv]), if_pos ⟨hlc, hlv⟩, if_neg hmiss]

/-- C9 amended witness. -/
theorem missing_columns_skip_instruction_witness :
    applyUpdateInstr ⟨["A"], [["x"]]⟩
      ⟨"update", "A", "y", some "NOPE", some "5", none⟩ = ⟨["A"], [["x"]]⟩ :=
  (missing_columns_skip_instruction ⟨["A"], [["x"]]⟩
      ⟨"update", "A", "y", some "NOPE", some "5", none⟩).2
    (by decide) (by decide) (by decide) (by decide)

/-- C10: with the target column present, LookupColumn present but
LookupValue and CurrentValue absent, the engine does not skip the
instruction: it falls through to the unconditional branch and overwrites
the whole target column with `NewValue`. -/
theorem lookup_without_value_updates_all_rows (t : Table) (r : UpdateInstr)
    (hwf : t.WF) (hcn : r.ColumnName ∈ t.cols) (hlc : r.LookupColumn.isSome = true)
    (hlv : r.LookupValue = none) (hcv : r.CurrentValue = none) :
    applyUpdateInstr t r = setWholeCol t r.ColumnName r.NewValue ∧
    ∀ i, i < t.rows.length → ∀ c, c ∈ t.cols →
      cell (applyUpdateInstr t r) c i =
        if c = r.ColumnName then r.NewValue else cell t c i := by
  have happ : applyUpdateInstr t r = setWholeCol t r.ColumnName r.NewValue := by
    unfold applyUpdateInstr
    rw [if_neg (by simpa using hcn)]
    simp [hlv, hcv]
  refine ⟨happ, ?_⟩
  rw [happ]
  exact (setWholeCol_cell_mem t r.ColumnName r.NewValue hwf hcn).2.2

/-- C10 witness. -/
theorem lookup_without_value_updates_all_rows_witness :
    applyUpdateInstr ⟨["A"], [["x"], ["z"]]⟩
        ⟨"update", "A", "y", some "A", none, none⟩ =
      setWholeCol ⟨["A"], [["x"], ["z"]]⟩ "A" "y" :=
  (lookup_without_value_updates_all_rows ⟨["A"], [["x"], ["z"]]⟩
      ⟨"update", "A", "y", some "A", none, none⟩
      (by constructor
          · decide
          · intro r hr
            simp only [List.mem_cons, List.not_mem_nil, or_false] at hr
            rcases hr with h | h <;> simp [h])
      (by decide) (by decide) (by decide) (by decide)).1

/-! ## Claim C7: malformed rows are dropped silently (corrected) -/

/-- C7 counterexample: in `['h', '*,a', '!1,C', '*,b']` the data line
`*,a` precedes the column-declaration line; it has exactly one value — the
column count — yet the parsed table keeps only the one row `b`: the row
count (1) differs from the number of data lines whose value count equals
the column count (2). -/
theorem row_count_mismatch_cex :
    readRptFile ["h", "*,a", "!1,C", "*,b"] =
      .ok (.full ⟨⟨["C"], [["b"]]⟩, some "h", [], [], some "1"⟩) ∧
    (["*,a", "!1,C", "*,b"].filter (keptLine ["C"])).length = 2 := by
  refine ⟨by decide, by decide⟩

/-- C7 amended: for a file whose column-declaration line is preceded only
by ignorable lines (and declares at least one column), parsing raises no
error, data lines with the wrong value count are excluded, and the row
count equals exactly the number of data lines of the data region whose
value count equals the column count. -/
theorem row_count_matches_wellformed_lines (header : String) (pre : List String)
    (colLine : String) (rest : List String) (m : String) (cs : List String)
    (hhead : pyStartsWith "##" (pyStrip header) = false)
    (hpre : ∀ l ∈ pre, inertLine l ∧ pyStartsWith "##" (pyStrip l) = false)
    (hcol : colDecl colLine = some (m, cs))
    (hcolnf : pyStartsWith "##" (pyStrip colLine) = false)
    (hcs : cs ≠ []) :
    ∃ p, readRptFile (header :: (pre ++ colLine :: rest)) = .ok (.full p) ∧
      p.table.rows.length = ((regionData rest).filter (keptLine cs)).length ∧
      p.table.rows = ((regionData rest).filter (keptLine cs)).map rowOf := by
  obtain ⟨q, h⟩ :=
    readRptFile_structured header pre colLine rest m cs hhead hpre hcol hcolnf
  refine ⟨_, h, ?_, ?_⟩
  · show (mkTable cs (((regionData rest).filter (keptLine cs)).map rowOf)).rows.length = _
    unfold mkTable
    by_cases hd : ((regionData rest).filter (keptLine cs)).map rowOf = []
    · rw [if_neg (by simp [hd])]
      have hfe : (regionData rest).filter (keptLine cs) = [] := by
        simpa using hd
      simp [hfe]
    · rw [if_pos ⟨hd, hcs⟩]
      simp
  · show (mkTable cs (((regionData rest).filter (keptLine cs)).map rowOf)).rows = _
    unfold mkTable
    by_cases hd : ((regionData rest).filter (keptLine cs)).map rowOf = []
    · rw [if_neg (by simp [hd])]
      exact hd.symm
    · rw [if_pos ⟨hd, hcs⟩]

/-- C7 amended, witness: a file with one comment line, one good data line
and one data line with a surplus value. -/
theorem row_count_matches_wellformed_lines_witness :
    ∃ p, readRptFile ("2 h" :: (["# note"] ++ "!1,A" :: ["*,x", "*,x,y", "## end"])) =
        .ok (.full p) ∧
      p.table.rows.length =
        ((regionData ["*,x", "*,x,y", "## end"]).filter (keptLine ["A"])).length ∧
      p.table.rows =
        ((regionData ["*,x", "*,x,y", "## end"]).filter (keptLine ["A"])).map rowOf :=
  row_count_matches_wellformed_lines "2 h" ["# note"] "!1,A"
    ["*,x", "*,x,y", "## end"] "1" ["A"]
    (by decide) (by decide) (by decide) (by decide) (by decide)

/-! ## Claim C1: the parse/serialize round trip -/

/-- C1: for a file that parses into a well-formed result (`goodParse`:
nonempty header, clean nonempty marker and column names, nonempty
rectangular rows of clean values, a footer absent or starting with `##`),
serializing the parse and parsing the output again reproduces the column
list (hence column count and order), the rows (hence row count and
values), the footer lines, and the column marker. -/
theorem round_trip_preserves_table_and_footer (lines : List String) (p : RptParse)
    (hparse : readRptFile lines = .ok (.full p)) (hgood : goodParse p) :
    ∃ p', readRptFile (writeRptFile p.table p.header p.footer p.quoted p.marker) =
        .ok (.full p') ∧
      p'.table.cols = p.table.cols ∧ p'.table.rows = p.table.rows ∧
      p'.footer = p.footer ∧ p'.marker = p.marker := by
  obtain ⟨hh, hmk, hcne, hct, hrne, hrows, hfoot⟩ := hgood
  obtain ⟨h0, hH, hh0⟩ : ∃ h0, p.header = some h0 ∧ h0 ≠ "" := by
    cases hH : p.header with
    | none =>
      rw [hH] at hh
      simp at hh
    | some h0 =>
      rw [hH] at hh
      exact ⟨h0, rfl, by simpa using hh⟩
  obtain ⟨m, hpm, hm, hmtok⟩ : ∃ m, p.marker = some m ∧ m ≠ "" ∧ cleanTok m := by
    cases hM : p.marker with
    | none =>
      rw [hM] at hmk
      exact absurd hmk (by simp)
    | some m =>
      rw [hM] at hmk
      exact ⟨m, rfl, hmk⟩
  obtain ⟨h', hho, hhns⟩ := headerOut_facts h0 p.table.cols.length hh0
  obtain ⟨hcdecl, hclns⟩ := colLine_facts m p.table.cols hm hmtok hcne
    (fun c hc => (hct c hc).2)
  have hdlf : ∀ r ∈ p.table.rows,
      pyStrip ("*," ++ pyJoin ',' (List.zipWith (formatVal p.quoted) p.table.cols r)) =
        "*," ++ pyJoin ',' (List.zipWith (formatVal p.quoted) p.table.cols r) ∧
      pyStartsWith "##" (pyStrip ("*," ++ pyJoin ','
        (List.zipWith (formatVal p.quoted) p.table.cols r))) = false ∧
      keptLine p.table.cols ("*," ++ pyJoin ','
        (List.zipWith (formatVal p.quoted) p.table.cols r)) = true ∧
      rowOf ("*," ++ pyJoin ','
        (List.zipWith (formatVal p.quoted) p.table.cols r)) = r :=
    fun r hr => dataLine_facts p.quoted p.table.cols r hcne
      (hrows r hr).1 (hrows r hr).2
  have hdls : ∀ l ∈ p.table.rows.map (fun r => "*," ++ pyJoin ','
      (List.zipWith (formatVal p.quoted) p.table.cols r)),
      pyStartsWith "##" (pyStrip l) = false ∧ keptLine p.table.cols l = true := by
    intro l hl
    obtain ⟨r, hr, rfl⟩ := List.mem_map.mp hl
    have hd := hdlf r hr
    rw [hd.1] at *
    exact ⟨by rw [← hd.1]; exact hd.2.1, hd.2.2.1⟩
  have hempty_notfoot : pyStartsWith "##" (pyStrip "") = false := by decide
  have hkempty : keptLine p.table.cols "" = false := by
    unfold keptLine
    rw [if_pos (Or.inl (show pyStrip "" = "" from rfl))]
  have hregion :
      regionData (p.table.rows.map (fun r => "*," ++ pyJoin ','
          (List.zipWith (formatVal p.quoted) p.table.cols r)) ++ ([""] ++ p.footer)) =
        p.table.rows.map (fun r => "*," ++ pyJoin ','
          (List.zipWith (formatVal p.quoted) p.table.cols r)) ++ [""] ∧
      regionFooter (p.table.rows.map (fun r => "*," ++ pyJoin ','
          (List.zipWith (formatVal p.quoted) p.table.cols r)) ++ ([""] ++ p.footer)) =
        p.footer := by
    cases hF : p.footer with
    | nil =>
      have hnone : footerStart (p.table.rows.map (fun r => "*," ++ pyJoin ','
          (List.zipWith (formatVal p.quoted) p.table.cols r)) ++ ([""] ++ [])) = none := by
        apply footerStart_none
        intro l hl
        rcases List.mem_append.mp hl with h1 | h2
        · exact (hdls l h1).1
        · simp only [List.append_nil, List.mem_singleton] at h2
          rw [h2]
          exact hempty_notfoot
      unfold regionData regionFooter
      rw [hnone]
      simp
    | cons f fs =>
      have hfns : pyStartsWith "##" (pyStrip f) = true := by
        rw [hF] at hfoot
        exact hfoot
      have hsome : footerStart
          (p.table.rows.map (fun r => "*," ++ pyJoin ','
            (List.zipWith (formatVal p.quoted) p.table.cols r)) ++ ([""] ++ (f :: fs))) =
          some ((p.table.rows.map (fun r => "*," ++ pyJoin ','
            (List.zipWith (formatVal p.quoted) p.table.cols r))).length + 1) := by
        rw [footerStart_append_neg _ _ (fun l hl => (hdls l hl).1)]
        rw [show ([""] ++ (f :: fs)) = "" :: (f :: fs) from rfl]
        rw [footerStart_cons_neg _ _ hempty_notfoot, footerStart_cons_pos _ _ hfns]
        simp
        omega
      unfold regionData regionFooter
      rw [hsome]
      dsimp only
      constructor
      · rw [List.take_append 1]
        rfl
      · rw [List.drop_append 1]
        rfl
  have hfilter : ((p.table.rows.map (fun r => "*," ++ pyJoin ','
      (List.zipWith (formatVal p.quoted) p.table.cols r)) ++ [""]).filter
        (keptLine p.table.cols)).map rowOf = p.table.rows := by
    rw [List.filter_append]
    rw [List.filter_eq_self.mpr (fun l hl => (hdls l hl).2)]
    rw [show ([""] : List String).filter (keptLine p.table.cols) = [] from by
      simp [List.filter_cons, hkempty]]
    rw [List.append_nil, List.map_map]
    calc p.table.rows.map (rowOf ∘ fun r => "*," ++ pyJoin ','
        (List.zipWith (formatVal p.quoted) p.table.cols r))
      = p.table.rows.map id := List.map_congr_left (fun r hr => (hdlf r hr).2.2.2)
    _ = p.table.rows := List.map_id _
  have hmkt : mkTable p.table.cols p.table.rows = ⟨p.table.cols, p.table.rows⟩ := by
    unfold mkTable
    rw [if_pos ⟨hrne, hcne⟩]
  obtain ⟨q, hread⟩ := readRptFile_structured h' []
    (colLineOut (some m) p.table.cols)
    (p.table.rows.map (fun r => "*," ++ pyJoin ','
      (List.zipWith (formatVal p.quoted) p.table.cols r)) ++ ([""] ++ p.footer))
    m p.table.cols hhns (by intro l hl; simp at hl) hcdecl hclns
  rw [hregion.1, hregion.2, hfilter, hmkt] at hread
  have hW : writeRptFile p.table p.header p.footer p.quoted p.marker =
      h' :: ([] ++ colLineOut (some m) p.table.cols ::
        (p.table.rows.map (fun r => "*," ++ pyJoin ','
          (List.zipWith (formatVal p.quoted) p.table.cols r)) ++ ([""] ++ p.footer))) := by
    unfold writeRptFile
    rw [hH, hpm, hho]
    simp
  rw [← hW] at hread
  exact ⟨_, hread, rfl, rfl, rfl, hpm.symm⟩

/-- C1 witness: the concrete two-row report file of the specification. -/
theorem round_trip_preserves_table_and_footer_witness :
    ∃ p', readRptFile (writeRptFile
        ⟨["CODE", "NAME", "AMT"], [["5", "Alice", "100"], ["6", "Bob", "200"]]⟩
        (some "3 REPORT X") ["## end"] ["NAME"] (some "1")) = .ok (.full p') ∧
      p'.table.cols = (⟨⟨["CODE", "NAME", "AMT"],
          [["5", "Alice", "100"], ["6", "Bob", "200"]]⟩, some "3 REPORT X",
          ["## end"], ["NAME"], some "1"⟩ : RptParse).table.cols ∧
      p'.table.rows = (⟨⟨["CODE", "NAME", "AMT"],
          [["5", "Alice", "100"], ["6", "Bob", "200"]]⟩, some "3 REPORT X",
          ["## end"], ["NAME"], some "1"⟩ : RptParse).table.rows ∧
      p'.footer = ["## end"] ∧ p'.marker = some "1" :=
  round_trip_preserves_table_and_footer
    ["3 REPORT X", "!1,CODE,NAME,AMT", "*,5,\"Alice\",100", "*,6,\"Bob\",200", "## end"]
    ⟨⟨["CODE", "NAME", "AMT"], [["5", "Alice", "100"], ["6", "Bob", "200"]]⟩,
      some "3 REPORT X", ["## end"], ["NAME"], some "1"⟩
    (by decide) (by decide)

/-! ## Claim C8: parsing never raises and always returns the full shape
(code bug) -/

/-- C8 (code bug evidence): on a file whose first data row precedes the
column declaration line and carries a quote-wrapped field the parser
raises (`len(None)` in the quote-tracking loop); and on a one-line file it
returns the early 4-tuple without the column marker rather than the full
result shape. -/
theorem parser_raises_and_short_shape :
    readRptFile ["5 hdr", "*,\"a\"", "!1,A"] = .error () ∧
    readRptFile ["only line"] = .ok (.short (some "only line") [] []) := by
  refine ⟨by decide, by decide⟩

end Scode

